import Mathlib

/-! Solar-system renderer: geometry and orbital kinematics.

A shallow embedding of the algorithmic parts of `src/main.cpp`:

* the geometric primitives `crossProduct`, `normal`, `convertSpherical`, `randomizeN`;
* the mesh builder `Mesh::addTriangle` and the tessellation `Mesh::genSphere`;
* the per-frame `update` with the three GLM matrix builders it calls;
* the buffer uploads of `Mesh::init`.

Conventions of the embedding.

* `std::vector<T>` is a `List`; `push_back` is `++ [x]`.
* `float` is an arbitrary linearly ordered field `α` (read at `ℚ` the definitions run, read at
  `ℝ` they are the exact-arithmetic meaning of the code).  The transcendental functions the
  code calls (`sin`, `cos`, `pow(·, 0.5)`) and the constant `M_PI` are passed as a record
  `FloatOps α`; over the reals the record is `⟨Real.sin, Real.cos, Real.sqrt, Real.pi⟩`.
* the sum `*it + r` that `randomizeN` stores is rounded to a `float` explicitly, by a function
  `fl` that `randomizeN` and its caller `genSphere` take as a parameter: on `ℚ` it is
  `binary32`, round to nearest with ties to even, and the identity stands for exact
  arithmetic.  The other operations are exact.  Infinities and NaN are not values of the
  field.
* a failing `assert` is `none`.
* `unsigned int` values are naturals reduced modulo `2 ^ 32`.
-/

set_option autoImplicit false

namespace SolarSystem

/-- The libm functions and the constant the program uses on `float`s. -/
structure FloatOps (α : Type) where
  /-- The libm function `sin`. -/
  sin : α → α
  /-- The libm function `cos`. -/
  cos : α → α
  /-- The square root, `pow(x, 0.5)`. -/
  sqrt : α → α
  /-- The constant `M_PI`. -/
  pi : α

section Constants

variable {α : Type} [LinearOrderedField α]

/-- Source: `const static float kSizeSun = 1;` -/
def kSizeSun : α := 1

/-- Source: `const static float kSizeEarth = 0.5;` -/
def kSizeEarth : α := 1 / 2

/-- Source: `const static float kSizeMoon = 0.25;` -/
def kSizeMoon : α := 1 / 4

/-- Source: `const static float kRadOrbitEarth = 10;` -/
def kRadOrbitEarth : α := 10

/-- Source: `const static float kRadOrbitMoon = 2;` -/
def kRadOrbitMoon : α := 2

end Constants

/-! ## Standard functions (`main.cpp`, lines 77-114) -/

section Primitives

variable {α : Type} [LinearOrderedField α]

/-- Source `crossProduct(a, b, c)`: asserts that `a` and `b` have size 3, then pushes the three
components of `a ^ b` onto `c`. -/
def crossProduct (a b c : List α) : Option (List α) :=
  match a, b with
  | [a0, a1, a2], [b0, b1, b2] =>
      some (c ++ [a1 * b2 - b1 * a2] ++ [a2 * b0 - b2 * a0] ++ [a0 * b1 - b0 * a1])
  | _, _ => none

/-- Source `normal(a, b, c, n)`: asserts that the three points have size 3, pushes the cross
product of the edge vectors `b - a` and `c - a` onto `n`, accumulates the squares of
`n[0..2]`, takes the square root and divides `n[0..2]` by it in place.  (Division is that of
the field; the source divides `float`s, so a zero norm is where the two part ways.) -/
def normal (ops : FloatOps α) (a b c n : List α) : Option (List α) :=
  match a, b, c with
  | [a0, a1, a2], [b0, b1, b2], [c0, c1, c2] => do
      let n ← crossProduct [b0 - a0, b1 - a1, b2 - a2] [c0 - a0, c1 - a1, c2 - a2] n
      let norm := (List.range 3).foldl (fun norm i => norm + (n.getD i 0) ^ 2) 0
      let norm := ops.sqrt norm
      some ((List.range 3).foldl (fun n i => n.set i (n.getD i 0 / norm)) n)
  | _, _, _ => none

/-- Source `convertSpherical(r, t, p, v)`: replaces `r` by `abs(r)` (the floating-point absolute
value) and pushes the Cartesian coordinates of the spherical point `(r, t, p)` onto `v`. -/
def convertSpherical (ops : FloatOps α) (r t p : α) (v : List α) : List α :=
  let r := |r|
  v ++ [r * ops.sin t * ops.cos p] ++ [r * ops.sin t * ops.sin p] ++ [r * ops.cos t]

/-- The random source of `randomizeN`: `distr lo hi i` is the value returned by the `i`-th
call `distr(eng)` of a `std::uniform_real_distribution<float> distr(lo, hi)` on a freshly
seeded engine. -/
abbrev RandomSource (α : Type) := α → α → Nat → α

/-- The contract of `std::uniform_real_distribution`: every value drawn from a distribution
built with bounds `lo`, `hi` lies between them. -/
def RandomSource.InRange (distr : RandomSource α) (lo hi : α) : Prop :=
  ∀ i, lo ≤ distr lo hi i ∧ distr lo hi i ≤ hi

/-- The loop of `randomizeN`: `it` walks over the rest of `a`, `i` counts the draws made; the
value pushed is the sum `*it + r`, rounded to a `float` by `fl`. -/
def randomizeN.loop (fl : α → α) (draw : Nat → α) : Nat → List α → List α → List α
  | _, [], b => b
  | i, x :: it, b => randomizeN.loop fl draw (i + 1) it (b ++ [fl (x + draw i)])

/-- Source `randomizeN(range, a, b)`: builds a uniform distribution on `(-range, range)` and, for
every element of `a` in order, draws `r` and pushes `*it + r` onto `b`.  The parameter `fl` is
the rounding of the exact sum to the `float` that is stored. -/
def randomizeN (fl : α → α) (distr : RandomSource α) (range : α) (a b : List α) : List α :=
  randomizeN.loop fl (distr (-range) range) 0 a b

end Primitives

/-! ## Rounding to `float`

The IEEE 754 binary32 format (24 significant bits, least exponent -126) on the rationals. -/

/-- Rounding of a rational to the nearest integer, ties to the even one. -/
def roundHalfEven (q : ℚ) : ℤ :=
  if q - ⌊q⌋ < 1 / 2 then ⌊q⌋
  else if 1 / 2 < q - ⌊q⌋ then ⌊q⌋ + 1
  else if ⌊q⌋ % 2 = 0 then ⌊q⌋ else ⌊q⌋ + 1

/-- The exponent `e` of the binade of `x`, `2 ^ e ≤ |x| < 2 ^ (e + 1)`, and `-126` in the
subnormal range. -/
def binade (x : ℚ) : ℤ := max (Int.log 2 |x|) (-126)

/-- The value of type `float` nearest to `x` (ties to even): `x` rounded to a multiple of the
unit in the last place `2 ^ (e - 23)` of its binade.  Overflow to an infinity is not
modelled: the results are those of the source below `2 ^ 128 - 2 ^ 103` in absolute value. -/
def binary32 (x : ℚ) : ℚ :=
  roundHalfEven (x / 2 ^ (binade x - 23)) * 2 ^ (binade x - 23)

/-! ## The GLM values and matrix builders used by `update`

GLM is a header library outside the repository; the three builders below follow its reference
implementation (`glm/ext/matrix_transform.inl`), with a matrix stored as its four columns. -/

/-- GLM `glm::vec3`. -/
structure Vec3 (α : Type) where
  x : α
  y : α
  z : α
deriving DecidableEq, Repr

/-- GLM `glm::vec4`. -/
structure Vec4 (α : Type) where
  x : α
  y : α
  z : α
  w : α
deriving DecidableEq, Repr

/-- GLM `glm::mat4`: the columns `m[0]`, `m[1]`, `m[2]`, `m[3]`. -/
structure Mat4 (α : Type) where
  c0 : Vec4 α
  c1 : Vec4 α
  c2 : Vec4 α
  c3 : Vec4 α
deriving DecidableEq, Repr

namespace glm

variable {α : Type} [LinearOrderedField α]

/-- Componentwise sum of two `vec4`. -/
def add4 (u v : Vec4 α) : Vec4 α := ⟨u.x + v.x, u.y + v.y, u.z + v.z, u.w + v.w⟩

/-- A `vec4` times a scalar. -/
def smul4 (u : Vec4 α) (s : α) : Vec4 α := ⟨u.x * s, u.y * s, u.z * s, u.w * s⟩

/-- GLM `glm::mat4(1)`: the identity matrix. -/
def mat4_1 : Mat4 α := ⟨⟨1, 0, 0, 0⟩, ⟨0, 1, 0, 0⟩, ⟨0, 0, 1, 0⟩, ⟨0, 0, 0, 1⟩⟩

/-- GLM `glm::radians(degrees)`. -/
def radians (ops : FloatOps α) (degrees : α) : α := degrees * (ops.pi / 180)

/-- GLM `glm::normalize(v)`: `v` divided by its Euclidean length. -/
def normalize (ops : FloatOps α) (v : Vec3 α) : Vec3 α :=
  let len := ops.sqrt (v.x * v.x + v.y * v.y + v.z * v.z)
  ⟨v.x / len, v.y / len, v.z / len⟩

/-- GLM `glm::translate(m, v)`: `Result = m`, then
`Result[3] = m[0]*v[0] + m[1]*v[1] + m[2]*v[2] + m[3]`. -/
def translate (m : Mat4 α) (v : Vec3 α) : Mat4 α :=
  { m with c3 := add4 (add4 (add4 (smul4 m.c0 v.x) (smul4 m.c1 v.y)) (smul4 m.c2 v.z)) m.c3 }

/-- GLM `glm::rotate(m, angle, v)`: `m` times the rotation by `angle` about the normalised axis
`v`, built entry by entry as in GLM. -/
def rotate (ops : FloatOps α) (m : Mat4 α) (angle : α) (v : Vec3 α) : Mat4 α :=
  let c := ops.cos angle
  let s := ops.sin angle
  let axis := normalize ops v
  let temp : Vec3 α := ⟨(1 - c) * axis.x, (1 - c) * axis.y, (1 - c) * axis.z⟩
  let r00 := c + temp.x * axis.x
  let r01 := temp.x * axis.y + s * axis.z
  let r02 := temp.x * axis.z - s * axis.y
  let r10 := temp.y * axis.x - s * axis.z
  let r11 := c + temp.y * axis.y
  let r12 := temp.y * axis.z + s * axis.x
  let r20 := temp.z * axis.x + s * axis.y
  let r21 := temp.z * axis.y - s * axis.x
  let r22 := c + temp.z * axis.z
  { c0 := add4 (add4 (smul4 m.c0 r00) (smul4 m.c1 r01)) (smul4 m.c2 r02)
    c1 := add4 (add4 (smul4 m.c0 r10) (smul4 m.c1 r11)) (smul4 m.c2 r12)
    c2 := add4 (add4 (smul4 m.c0 r20) (smul4 m.c1 r21)) (smul4 m.c2 r22)
    c3 := m.c3 }

/-- GLM `glm::scale(m, v)`: the first three columns of `m` scaled by the components of `v`. -/
def scale (m : Mat4 α) (v : Vec3 α) : Mat4 α :=
  { c0 := smul4 m.c0 v.x, c1 := smul4 m.c1 v.y, c2 := smul4 m.c2 v.z, c3 := m.c3 }

/-- GLM `glm::mat3(m) * v`: the upper-left 3x3 block of `m` applied to `v`. -/
def mat3_mul (m : Mat4 α) (v : Vec3 α) : Vec3 α :=
  ⟨m.c0.x * v.x + m.c1.x * v.y + m.c2.x * v.z,
   m.c0.y * v.x + m.c1.y * v.y + m.c2.y * v.z,
   m.c0.z * v.x + m.c1.z * v.y + m.c2.z * v.z⟩

end glm

/-! ## Camera and mesh (`main.cpp`, lines 117-341) -/

/-- The fields of `class Camera`, with their initial values. -/
structure Camera (α : Type) [LinearOrderedField α] where
  m_pos : Vec3 α := ⟨0, 0, 0⟩
  m_fov : α := 45
  m_aspectRatio : α := 1
  m_near : α := 1 / 10
  m_far : α := 10

/-- The CPU-side fields of `class Mesh`, with their initial values. -/
structure Mesh (α : Type) [LinearOrderedField α] where
  m_ambientColor : List α := []
  m_vertexPositions : List α := []
  m_vertexNormals : List α := []
  m_triangleIndices : List Nat := []
  m_triangleNormals : List α := []
  m_vertexTexCoords : List α := []
  transformation : Mat4 α := glm.mat4_1

section MeshOps

variable {α : Type} [LinearOrderedField α]

/-- Source `Mesh::setTransformation(trans)`. -/
def Mesh.setTransformation (m : Mesh α) (trans : Mat4 α) : Mesh α :=
  { m with transformation := trans }

/-- Source `Camera::setPosition(p)`. -/
def Camera.setPosition (c : Camera α) (p : Vec3 α) : Camera α :=
  { c with m_pos := p }

/-- Source `Mesh::addTriangle(verPos)`: asserts `verPos.size() >= 9`, records
`size = m_vertexPositions.size() / 3`, computes the normal `n` of the first three points of
`verPos` into an empty vector, pushes `verPos[0..8]` onto the positions and then, for
`i = 0, 1, 2`, pushes `size + 2 - i` onto the indices and `-n[i]` onto the triangle normals.
`size` is an `int`, `i` an `unsigned int` and the entries of the index vector are
`unsigned int`: with two-complement conversions the entry pushed is `size + 2 - i` modulo
`2 ^ 32`, `size` standing for the quotient before it is narrowed. -/
def Mesh.addTriangle (ops : FloatOps α) (m : Mesh α) (verPos : List α) : Option (Mesh α) :=
  if 9 ≤ verPos.length then do
    let size := m.m_vertexPositions.length / 3
    let a := [verPos.getD 0 0, verPos.getD 1 0, verPos.getD 2 0]
    let b := [verPos.getD 3 0, verPos.getD 4 0, verPos.getD 5 0]
    let c := [verPos.getD 6 0, verPos.getD 7 0, verPos.getD 8 0]
    let n ← normal ops a b c []
    let m := (List.range 9).foldl
      (fun m i => { m with m_vertexPositions := m.m_vertexPositions ++ [verPos.getD i 0] }) m
    some ((List.range 3).foldl
      (fun m i => { m with
        m_triangleIndices := m.m_triangleIndices ++ [(size + 2 - i) % 2 ^ 32]
        m_triangleNormals := m.m_triangleNormals ++ [-(n.getD i 0)] }) m)
  else none

/-- Source `m->m_vertexTexCoords.push_back(x)`. -/
def Mesh.pushTexCoord (m : Mesh α) (x : α) : Mesh α :=
  { m with m_vertexTexCoords := m.m_vertexTexCoords ++ [x] }

/-- The body of the inner loop of `genSphere` (lines 290-314) for the loop counters `theta`
and `phi`: one square, as two triangles with their positions and texture coordinates. -/
def genSphere.body (ops : FloatOps α) (resolution : Nat) (theta phi : α) (m : Mesh α) :
    Option (Mesh α) := do
  let v : List α := []
  let v := convertSpherical ops 1 (theta / resolution * ops.pi) (phi / resolution * 2 * ops.pi) v
  let m := m.pushTexCoord (phi / resolution)
  let m := m.pushTexCoord (1 - theta / resolution)
  let v := convertSpherical ops 1 ((theta + 1) / resolution * ops.pi)
    (phi / resolution * 2 * ops.pi) v
  let m := m.pushTexCoord (phi / resolution)
  let m := m.pushTexCoord (1 - (theta + 1) / resolution)
  let v := convertSpherical ops 1 (theta / resolution * ops.pi)
    ((phi + 1) / resolution * 2 * ops.pi) v
  let m := m.pushTexCoord ((phi + 1) / resolution)
  let m := m.pushTexCoord (1 - theta / resolution)
  let m ← m.addTriangle ops v
  let v : List α := []
  let v := convertSpherical ops 1 ((theta + 1) / resolution * ops.pi)
    (phi / resolution * 2 * ops.pi) v
  let m := m.pushTexCoord (phi / resolution)
  let m := m.pushTexCoord (1 - (theta + 1) / resolution)
  let v := convertSpherical ops 1 ((theta + 1) / resolution * ops.pi)
    ((phi + 1) / resolution * 2 * ops.pi) v
  let m := m.pushTexCoord ((phi + 1) / resolution)
  let m := m.pushTexCoord (1 - (theta + 1) / resolution)
  let v := convertSpherical ops 1 (theta / resolution * ops.pi)
    ((phi + 1) / resolution * 2 * ops.pi) v
  let m := m.pushTexCoord ((phi + 1) / resolution)
  let m := m.pushTexCoord (1 - theta / resolution)
  m.addTriangle ops v

/-- Source `Mesh::genSphere(resolution)`: starting from an empty mesh, runs the body for
`theta = 0, 1, ..., resolution - 1` and, inside, `phi = 0, 1, ..., resolution - 1` (the two
`float` counters of the source, which step by one while below `resolution`; they are read
as exact, which they are in binary32 up to `2 ^ 24`), then fills the vertex normals with the
positions perturbed by `randomizeN(0.1, ...)`, the literal `0.1` being rounded to the `float`
parameter `range`.  The unused local `coef` is left out. -/
def genSphere (ops : FloatOps α) (fl : α → α) (distr : RandomSource α) (resolution : Nat) :
    Option (Mesh α) := do
  let m : Mesh α := {}
  let m ← (List.range resolution).foldlM
    (fun m (theta : Nat) => (List.range resolution).foldlM
      (fun m (phi : Nat) => genSphere.body ops resolution (theta : α) (phi : α) m) m) m
  some { m with
    m_vertexNormals :=
      randomizeN fl distr (fl (1 / 10)) m.m_vertexPositions m.m_vertexNormals }

end MeshOps

/-! ## Scene update (`main.cpp`, lines 502-524) -/

section Update

variable {α : Type} [LinearOrderedField α]

/-- What `update` writes: the globals `g_earth`, `g_moon`, `g_camera` and the two meshes. -/
structure Scene (α : Type) [LinearOrderedField α] where
  g_earth : Mat4 α
  g_moon : Mat4 α
  earth : Mesh α
  moon : Mesh α
  g_camera : Camera α

/-- Source `update(currentTimeInSec, earth, moon, angV)`. -/
def update (ops : FloatOps α) (g_camera : Camera α) (currentTimeInSec : α)
    (earth moon : Mesh α) (angV : α) : Scene α :=
  let velocity := currentTimeInSec * angV
  let g_earth := glm.translate glm.mat4_1
    ⟨kRadOrbitEarth * ops.cos velocity, kRadOrbitEarth * ops.sin velocity, 0⟩
  let g_moon := glm.rotate ops g_earth (4 * velocity) ⟨0, 0, 1⟩
  let g_moon := glm.translate g_moon ⟨kRadOrbitMoon, 0, 0⟩
  let g_earth := glm.rotate ops g_earth (glm.radians ops (47 / 2)) ⟨0, 0, 1⟩
  let g_earth := glm.rotate ops g_earth (2 * velocity) ⟨0, 0, 1⟩
  let g_earth := glm.scale g_earth ⟨kSizeEarth, kSizeEarth, kSizeEarth⟩
  let g_moon := glm.scale g_moon ⟨kSizeMoon, kSizeMoon, kSizeMoon⟩
  { g_earth := g_earth
    g_moon := g_moon
    earth := earth.setTransformation g_earth
    moon := moon.setTransformation g_moon
    g_camera := g_camera.setPosition
      (glm.mat3_mul (glm.rotate ops glm.mat4_1 velocity ⟨0, 0, 1⟩) ⟨5, -10, 20⟩) }

end Update

/-! ## GPU upload (`main.cpp`, lines 152-224) -/

/-- A GPU buffer object: the byte size of its data store and the values held in it. -/
structure GLBuffer (β : Type) where
  byteSize : Nat
  data : List β
deriving DecidableEq, Repr

/-- The four buffer objects `Mesh::init` creates, under the names of the fields of `Mesh`
that hold their handles (`m_normalVbo` is the handle of the index buffer). -/
structure MeshBuffers (α : Type) where
  m_posVbo : GLBuffer α
  m_colVbo : GLBuffer α
  m_texCoordVbo : GLBuffer α
  m_normalVbo : GLBuffer Nat

section Upload

variable {α : Type} [LinearOrderedField α]

/-- The size in bytes of a `float` and of an `unsigned int`. -/
def sizeofScalar : Nat := 4

/-- The calls `glBufferData(target, size, data, usage)` and
`glNamedBufferStorage(buffer, size, data, flags)`: a data store of `size` bytes is created
and filled with the `size` bytes found at `data`.  Reading more bytes than the array at `data`
holds is undefined: `none`. -/
def glBufferData {β : Type} (size : Nat) (data : List β) : Option (GLBuffer β) :=
  if size ≤ sizeofScalar * data.length then
    some { byteSize := size, data := data.take (size / sizeofScalar) }
  else none

/-- Source `Mesh::init()`, with the build macro `_MY_OPENGL_IS_33_` as a parameter (`true`
when it is defined).  Each of the four blocks computes a byte size from a CPU vector and
creates a buffer filled from a `data()` pointer; the last statement sets the ambient colour.
In the block of the colours the branch of OpenGL 3.3 passes `m_vertexNormals.data()`, the
other one `m_ambientColor.data()`. -/
def Mesh.init (_MY_OPENGL_IS_33_ : Bool) (m : Mesh α) : Option (Mesh α × MeshBuffers α) := do
  let vertexBufferSize := sizeofScalar * m.m_vertexPositions.length
  let posVbo ← glBufferData vertexBufferSize m.m_vertexPositions
  let colorBufferSize := sizeofScalar * m.m_vertexNormals.length
  let colVbo ←
    if _MY_OPENGL_IS_33_ then glBufferData colorBufferSize m.m_vertexNormals
    else glBufferData colorBufferSize m.m_ambientColor
  let texPosBufferSize := sizeofScalar * m.m_vertexTexCoords.length
  let texCoordVbo ← glBufferData texPosBufferSize m.m_vertexTexCoords
  let indexBufferSize := sizeofScalar * m.m_triangleIndices.length
  let normalVbo ← glBufferData indexBufferSize m.m_triangleIndices
  some ({ m with m_ambientColor := [0, 1 / 2, 1] },
    { m_posVbo := posVbo, m_colVbo := colVbo, m_texCoordVbo := texCoordVbo,
      m_normalVbo := normalVbo })

end Upload

/-! ## Vocabulary of the statements -/

section Vocabulary

variable {α : Type} [LinearOrderedField α]

/-- The edge vector `q - p` of two points given by their coordinate lists. -/
def vsub (q p : List α) : List α := List.zipWith (fun x y => x - y) q p

/-- The dot product of two coordinate lists. -/
def dot (u v : List α) : α := (List.zipWith (fun x y => x * y) u v).sum

/-- The Euclidean length of a coordinate list. -/
def euclidNorm (ops : FloatOps α) (u : List α) : α := ops.sqrt (dot u u)

/-- Three points are collinear when their edge vectors `b - a` and `c - a` are linearly
dependent. -/
def Collinear3 (a b c : List α) : Prop :=
  ∃ s t : α, (s ≠ 0 ∨ t ≠ 0) ∧
    (vsub b a).map (fun x => s * x) = (vsub c a).map (fun x => t * x)

end Vocabulary

/-! ## Closed forms of what `genSphere` builds -/

section SphereVocabulary

variable {α : Type} [LinearOrderedField α]

/-- The standard spherical-to-Cartesian map: the point of radius `rad`, polar angle `polar`
(from +Z) and azimuth `azimuth`. -/
def sphericalImage (ops : FloatOps α) (rad polar azimuth : α) : List α :=
  [rad * ops.sin polar * ops.cos azimuth, rad * ops.sin polar * ops.sin azimuth,
   rad * ops.cos polar]

/-- The six grid corners `(theta index, phi index)` of the quad `(i, j)` in the order their
vertices are stored: triangle 1, then triangle 2. -/
def quadCorners (i j : Nat) : List (Nat × Nat) :=
  [(i, j), (i + 1, j), (i, j + 1), (i + 1, j), (i + 1, j + 1), (i, j + 1)]

/-- The grid corner of the vertex number `n` of `genSphere(r)`: the quads are numbered in
row-major order and each holds six vertices. -/
def vertexCorner (r n : Nat) : Nat × Nat :=
  (quadCorners (n / 6 / r) (n / 6 % r)).getD (n % 6) (0, 0)

/-- The three coordinates pushed for the loop counters `theta`, `phi`. -/
def gridPoint (ops : FloatOps α) (resolution : Nat) (theta phi : α) : List α :=
  convertSpherical ops 1 (theta / resolution * ops.pi) (phi / resolution * 2 * ops.pi) []

/-- The two texture coordinates pushed for the loop counters `theta`, `phi`. -/
def gridTexCoord (resolution : Nat) (theta phi : α) : List α :=
  [phi / resolution, 1 - theta / resolution]

/-- The eighteen coordinates one pass of the loop body pushes. -/
def quadPositions (ops : FloatOps α) (resolution : Nat) (theta phi : α) : List α :=
  gridPoint ops resolution theta phi ++ gridPoint ops resolution (theta + 1) phi ++
  gridPoint ops resolution theta (phi + 1) ++ gridPoint ops resolution (theta + 1) phi ++
  gridPoint ops resolution (theta + 1) (phi + 1) ++ gridPoint ops resolution theta (phi + 1)

/-- The twelve texture coordinates one pass of the loop body pushes. -/
def quadTexCoords (resolution : Nat) (theta phi : α) : List α :=
  gridTexCoord resolution theta phi ++ gridTexCoord resolution (theta + 1) phi ++
  gridTexCoord resolution theta (phi + 1) ++ gridTexCoord resolution (theta + 1) phi ++
  gridTexCoord resolution (theta + 1) (phi + 1) ++ gridTexCoord resolution theta (phi + 1)

/-- The three indices pushed for the triangle number `k`. -/
def triangleIndices (k : Nat) : List Nat :=
  [(3 * k + 2) % 2 ^ 32, (3 * k + 1) % 2 ^ 32, (3 * k) % 2 ^ 32]

/-- The three values `addTriangle` pushes onto the triangle normals for the corners `a`, `b`,
`c`: the components of `normal(a, b, c)`, negated. -/
def storedNormal (ops : FloatOps α) (a b c : List α) : List α :=
  ((normal ops a b c []).getD []).map (fun x => -x)

/-- The six triangle-normal values one pass of the loop body pushes. -/
def quadNormals (ops : FloatOps α) (resolution : Nat) (theta phi : α) : List α :=
  storedNormal ops (gridPoint ops resolution theta phi) (gridPoint ops resolution (theta + 1) phi)
    (gridPoint ops resolution theta (phi + 1)) ++
  storedNormal ops (gridPoint ops resolution (theta + 1) phi)
    (gridPoint ops resolution (theta + 1) (phi + 1)) (gridPoint ops resolution theta (phi + 1))

/-- All coordinates `genSphere(r)` pushes: the quads in row-major order, `q = i * r + j`. -/
def spherePositions (ops : FloatOps α) (r : Nat) : List α :=
  (List.range (r * r)).flatMap
    (fun q => quadPositions ops r ((q / r : Nat) : α) ((q % r : Nat) : α))

/-- All texture coordinates `genSphere(r)` pushes. -/
def sphereTexCoords (r : Nat) : List α :=
  (List.range (r * r)).flatMap
    (fun q => quadTexCoords r ((q / r : Nat) : α) ((q % r : Nat) : α))

/-- All triangle-normal values `genSphere(r)` pushes. -/
def sphereTriangleNormals (ops : FloatOps α) (r : Nat) : List α :=
  (List.range (r * r)).flatMap
    (fun q => quadNormals ops r ((q / r : Nat) : α) ((q % r : Nat) : α))

/-- All indices `genSphere(r)` pushes. -/
def sphereIndices (r : Nat) : List Nat :=
  (List.range (2 * (r * r))).flatMap triangleIndices

end SphereVocabulary

/-! ## Matrices of the statements about `update` -/

section MatrixVocabulary

variable {α : Type} [LinearOrderedField α]

/-- The product of a matrix and a column vector. -/
def mulVec (m : Mat4 α) (v : Vec4 α) : Vec4 α :=
  glm.add4 (glm.add4 (glm.add4 (glm.smul4 m.c0 v.x) (glm.smul4 m.c1 v.y)) (glm.smul4 m.c2 v.z))
    (glm.smul4 m.c3 v.w)

/-- The matrix product `a * b`, column by column. -/
def matMul (a b : Mat4 α) : Mat4 α :=
  ⟨mulVec a b.c0, mulVec a b.c1, mulVec a b.c2, mulVec a b.c3⟩

/-- The transpose of a matrix. -/
def transpose (m : Mat4 α) : Mat4 α :=
  ⟨⟨m.c0.x, m.c1.x, m.c2.x, m.c3.x⟩, ⟨m.c0.y, m.c1.y, m.c2.y, m.c3.y⟩,
   ⟨m.c0.z, m.c1.z, m.c2.z, m.c3.z⟩, ⟨m.c0.w, m.c1.w, m.c2.w, m.c3.w⟩⟩

/-- The determinant of the linear part (the upper-left 3x3 block) of a matrix. -/
def det3 (m : Mat4 α) : α :=
  m.c0.x * (m.c1.y * m.c2.z - m.c2.y * m.c1.z)
    - m.c1.x * (m.c0.y * m.c2.z - m.c2.y * m.c0.z)
    + m.c2.x * (m.c0.y * m.c1.z - m.c1.y * m.c0.z)

/-- The translation by `(x, y, z)`. -/
def translationMat (x y z : α) : Mat4 α :=
  ⟨⟨1, 0, 0, 0⟩, ⟨0, 1, 0, 0⟩, ⟨0, 0, 1, 0⟩, ⟨x, y, z, 1⟩⟩

/-- The rotation by `angle` about the Z axis. -/
def rotationZ (ops : FloatOps α) (angle : α) : Mat4 α :=
  ⟨⟨ops.cos angle, ops.sin angle, 0, 0⟩, ⟨-ops.sin angle, ops.cos angle, 0, 0⟩,
   ⟨0, 0, 1, 0⟩, ⟨0, 0, 0, 1⟩⟩

/-- The uniform scaling by `s`. -/
def scaleMat (s : α) : Mat4 α :=
  ⟨⟨s, 0, 0, 0⟩, ⟨0, s, 0, 0⟩, ⟨0, 0, s, 0⟩, ⟨0, 0, 0, 1⟩⟩

end MatrixVocabulary

/-! ## Theorems: the standard functions -/

section PrimitiveLemmas

variable {α : Type} [LinearOrderedField α]

theorem range3 : List.range 3 = [0, 1, 2] := rfl

theorem crossProduct_three (a0 a1 a2 b0 b1 b2 : α) (c : List α) :
    crossProduct [a0, a1, a2] [b0, b1, b2] c
      = some (c ++ [a1 * b2 - a2 * b1, a2 * b0 - a0 * b2, a0 * b1 - a1 * b0]) := by
  simp [crossProduct, mul_comm]

theorem crossProduct_isSome_iff (a b c : List α) :
    (crossProduct a b c).isSome ↔ a.length = 3 ∧ b.length = 3 := by
  rcases a with _ | ⟨a0, _ | ⟨a1, _ | ⟨a2, _ | ⟨a3, as⟩⟩⟩⟩ <;>
  rcases b with _ | ⟨b0, _ | ⟨b1, _ | ⟨b2, _ | ⟨b3, bs⟩⟩⟩⟩ <;>
  simp [crossProduct]

end PrimitiveLemmas

/-- C7: `crossProduct(a, b, c)` succeeds exactly when `a` and `b` both have three components;
it then returns `c` followed by the three components of the standard cross product `a x b`,
and for an empty `c` exactly `a x b`. -/
theorem crossProduct_spec {α : Type} [LinearOrderedField α] (a b c : List α) :
    ((crossProduct a b c).isSome ↔ a.length = 3 ∧ b.length = 3) ∧
    crossProduct a b c =
      (if a.length = 3 ∧ b.length = 3 then
        some (c ++ [a.getD 1 0 * b.getD 2 0 - a.getD 2 0 * b.getD 1 0,
                    a.getD 2 0 * b.getD 0 0 - a.getD 0 0 * b.getD 2 0,
                    a.getD 0 0 * b.getD 1 0 - a.getD 1 0 * b.getD 0 0])
      else none) ∧
    crossProduct a b [] =
      (if a.length = 3 ∧ b.length = 3 then
        some [a.getD 1 0 * b.getD 2 0 - a.getD 2 0 * b.getD 1 0,
              a.getD 2 0 * b.getD 0 0 - a.getD 0 0 * b.getD 2 0,
              a.getD 0 0 * b.getD 1 0 - a.getD 1 0 * b.getD 0 0]
      else none) := by
  refine ⟨crossProduct_isSome_iff a b c, ?_, ?_⟩ <;>
  rcases a with _ | ⟨a0, _ | ⟨a1, _ | ⟨a2, _ | ⟨a3, as⟩⟩⟩⟩ <;>
  rcases b with _ | ⟨b0, _ | ⟨b1, _ | ⟨b2, _ | ⟨b3, bs⟩⟩⟩⟩ <;>
  simp [crossProduct, mul_comm]

section NormalLemmas

variable {α : Type} [LinearOrderedField α]

/-- The cross product of the edge vectors vanishes exactly when the points are collinear. -/
theorem collinear3_iff_cross (a0 a1 a2 b0 b1 b2 c0 c1 c2 : α) :
    Collinear3 [a0, a1, a2] [b0, b1, b2] [c0, c1, c2] ↔
      crossProduct [b0 - a0, b1 - a1, b2 - a2] [c0 - a0, c1 - a1, c2 - a2] []
        = some [0, 0, 0] := by
  rw [crossProduct_three]
  simp only [Collinear3, vsub, List.zipWith_cons_cons, List.zipWith_nil_right, List.map_cons,
    List.map_nil, List.nil_append, Option.some.injEq, List.cons.injEq, and_true]
  constructor
  · rintro ⟨s, t, hst, h0, h1, h2⟩
    rcases hst with hs | ht
    · refine ⟨?_, ?_, ?_⟩ <;> apply mul_left_cancel₀ hs
      · linear_combination (c2 - a2) * h1 - (c1 - a1) * h2
      · linear_combination (c0 - a0) * h2 - (c2 - a2) * h0
      · linear_combination (c1 - a1) * h0 - (c0 - a0) * h1
    · refine ⟨?_, ?_, ?_⟩ <;> apply mul_left_cancel₀ ht
      · linear_combination (b2 - a2) * h1 - (b1 - a1) * h2
      · linear_combination (b0 - a0) * h2 - (b2 - a2) * h0
      · linear_combination (b1 - a1) * h0 - (b0 - a0) * h1
  · rintro ⟨h0, h1, h2⟩
    by_cases u0 : b0 - a0 = 0
    · by_cases u1 : b1 - a1 = 0
      · by_cases u2 : b2 - a2 = 0
        · exact ⟨1, 0, Or.inl one_ne_zero, by simp [u0], by simp [u1], by simp [u2]⟩
        · refine ⟨c2 - a2, b2 - a2, Or.inr u2, ?_, ?_, ?_⟩
          · linear_combination -h1
          · linear_combination h0
          · ring
      · refine ⟨c1 - a1, b1 - a1, Or.inr u1, ?_, ?_, ?_⟩
        · linear_combination h2
        · ring
        · linear_combination -h0
    · refine ⟨c0 - a0, b0 - a0, Or.inr u0, ?_, ?_, ?_⟩
      · ring
      · linear_combination -h2
      · linear_combination h1

end NormalLemmas

section NormalEval

variable {α : Type} [LinearOrderedField α]

/-- What `normal` computes on three points and an empty output vector. -/
theorem normal_three (ops : FloatOps α) (a0 a1 a2 b0 b1 b2 c0 c1 c2 : α) :
    normal ops [a0, a1, a2] [b0, b1, b2] [c0, c1, c2] [] =
      some [((b1 - a1) * (c2 - a2) - (b2 - a2) * (c1 - a1)) /
              ops.sqrt (0 + ((b1 - a1) * (c2 - a2) - (b2 - a2) * (c1 - a1)) ^ 2
                + ((b2 - a2) * (c0 - a0) - (b0 - a0) * (c2 - a2)) ^ 2
                + ((b0 - a0) * (c1 - a1) - (b1 - a1) * (c0 - a0)) ^ 2),
            ((b2 - a2) * (c0 - a0) - (b0 - a0) * (c2 - a2)) /
              ops.sqrt (0 + ((b1 - a1) * (c2 - a2) - (b2 - a2) * (c1 - a1)) ^ 2
                + ((b2 - a2) * (c0 - a0) - (b0 - a0) * (c2 - a2)) ^ 2
                + ((b0 - a0) * (c1 - a1) - (b1 - a1) * (c0 - a0)) ^ 2),
            ((b0 - a0) * (c1 - a1) - (b1 - a1) * (c0 - a0)) /
              ops.sqrt (0 + ((b1 - a1) * (c2 - a2) - (b2 - a2) * (c1 - a1)) ^ 2
                + ((b2 - a2) * (c0 - a0) - (b0 - a0) * (c2 - a2)) ^ 2
                + ((b0 - a0) * (c1 - a1) - (b1 - a1) * (c0 - a0)) ^ 2)] := by
  simp [normal, crossProduct, range3, mul_comm]

end NormalEval

/-- C6: for three 3-component points that are not collinear and an empty output vector,
`normal` returns the cross product of the edge vectors `b - a` and `c - a` divided by its
(non-zero) Euclidean length: three components, Euclidean length 1, orthogonal to both edge
vectors (over the reals). -/
theorem normal_spec (a b c : List ℝ) (ha : a.length = 3) (hb : b.length = 3)
    (hc : c.length = 3) (h : ¬ Collinear3 a b c) :
    ∃ x n : List ℝ,
      crossProduct (vsub b a) (vsub c a) [] = some x ∧
      euclidNorm ⟨Real.sin, Real.cos, Real.sqrt, Real.pi⟩ x ≠ 0 ∧
      normal ⟨Real.sin, Real.cos, Real.sqrt, Real.pi⟩ a b c [] = some n ∧
      n = x.map (fun t => t / euclidNorm ⟨Real.sin, Real.cos, Real.sqrt, Real.pi⟩ x) ∧
      n.length = 3 ∧
      euclidNorm ⟨Real.sin, Real.cos, Real.sqrt, Real.pi⟩ n = 1 ∧
      dot n (vsub b a) = 0 ∧ dot n (vsub c a) = 0 := by
  obtain ⟨a0, a1, a2, rfl⟩ := List.length_eq_three.mp ha
  obtain ⟨b0, b1, b2, rfl⟩ := List.length_eq_three.mp hb
  obtain ⟨c0, c1, c2, rfl⟩ := List.length_eq_three.mp hc
  rw [collinear3_iff_cross, crossProduct_three] at h
  have hx : ¬ ((b1 - a1) * (c2 - a2) - (b2 - a2) * (c1 - a1) = 0 ∧
      (b2 - a2) * (c0 - a0) - (b0 - a0) * (c2 - a2) = 0 ∧
      (b0 - a0) * (c1 - a1) - (b1 - a1) * (c0 - a0) = 0) := by
    simpa using h
  generalize hx0 : (b1 - a1) * (c2 - a2) - (b2 - a2) * (c1 - a1) = x0 at hx
  generalize hx1 : (b2 - a2) * (c0 - a0) - (b0 - a0) * (c2 - a2) = x1 at hx
  generalize hx2 : (b0 - a0) * (c1 - a1) - (b1 - a1) * (c0 - a0) = x2 at hx
  have hS : 0 < x0 * x0 + x1 * x1 + x2 * x2 := by
    have h0 := mul_self_nonneg x0
    have h1 := mul_self_nonneg x1
    have h2 := mul_self_nonneg x2
    rcases lt_or_eq_of_le (add_nonneg (add_nonneg h0 h1) h2) with hlt | heq
    · exact hlt
    · exfalso
      apply hx
      refine ⟨?_, ?_, ?_⟩ <;> apply mul_self_eq_zero.mp <;> linarith
  have hs : 0 < Real.sqrt (x0 * x0 + x1 * x1 + x2 * x2) := Real.sqrt_pos.mpr hS
  have hss : Real.sqrt (x0 * x0 + x1 * x1 + x2 * x2) * Real.sqrt (x0 * x0 + x1 * x1 + x2 * x2)
      = x0 * x0 + x1 * x1 + x2 * x2 := Real.mul_self_sqrt hS.le
  refine ⟨[x0, x1, x2], _, ?_, ?_, normal_three _ a0 a1 a2 b0 b1 b2 c0 c1 c2, ?_, ?_, ?_, ?_, ?_⟩
  · simp only [vsub, List.zipWith_cons_cons, List.zipWith_nil_right]
    rw [crossProduct_three, hx0, hx1, hx2]
    rfl
  · simpa [euclidNorm, dot, ← add_assoc] using hs.ne'
  · simp [euclidNorm, dot, hx0, hx1, hx2, pow_two, ← add_assoc]
  · simp
  · simp only [euclidNorm, dot, hx0, hx1, hx2, pow_two, zero_add, List.zipWith_cons_cons,
      List.zipWith_nil_right, List.sum_cons, List.sum_nil, add_zero]
    have : x0 / Real.sqrt (x0 * x0 + x1 * x1 + x2 * x2) *
          (x0 / Real.sqrt (x0 * x0 + x1 * x1 + x2 * x2)) +
        (x1 / Real.sqrt (x0 * x0 + x1 * x1 + x2 * x2) *
          (x1 / Real.sqrt (x0 * x0 + x1 * x1 + x2 * x2)) +
        x2 / Real.sqrt (x0 * x0 + x1 * x1 + x2 * x2) *
          (x2 / Real.sqrt (x0 * x0 + x1 * x1 + x2 * x2))) = 1 := by
      field_simp
      linarith
    rw [this, Real.sqrt_one]
  · simp only [dot, vsub, hx0, hx1, hx2, pow_two, zero_add, List.zipWith_cons_cons,
      List.zipWith_nil_right, List.sum_cons, List.sum_nil, add_zero]
    subst hx0 hx1 hx2
    field_simp
    ring
  · simp only [dot, vsub, hx0, hx1, hx2, pow_two, zero_add, List.zipWith_cons_cons,
      List.zipWith_nil_right, List.sum_cons, List.sum_nil, add_zero]
    subst hx0 hx1 hx2
    field_simp
    ring

/-- Witness for C6: the triangle `(0,0,0)`, `(1,0,0)`, `(0,1,0)` is not collinear and
`normal` gives it a unit normal. -/
theorem normal_spec_witness :
    ∃ x n : List ℝ,
      crossProduct (vsub [1, 0, 0] [0, 0, 0]) (vsub [0, 1, 0] [0, 0, 0]) [] = some x ∧
      euclidNorm ⟨Real.sin, Real.cos, Real.sqrt, Real.pi⟩ x ≠ 0 ∧
      normal ⟨Real.sin, Real.cos, Real.sqrt, Real.pi⟩ [0, 0, 0] [1, 0, 0] [0, 1, 0] [] = some n ∧
      n = x.map (fun t => t / euclidNorm ⟨Real.sin, Real.cos, Real.sqrt, Real.pi⟩ x) ∧
      n.length = 3 ∧
      euclidNorm ⟨Real.sin, Real.cos, Real.sqrt, Real.pi⟩ n = 1 ∧
      dot n (vsub [1, 0, 0] [0, 0, 0]) = 0 ∧ dot n (vsub [0, 1, 0] [0, 0, 0]) = 0 :=
  normal_spec [0, 0, 0] [1, 0, 0] [0, 1, 0] rfl rfl rfl (by
    rw [collinear3_iff_cross, crossProduct_three]
    simp)

/-- C8: over the reals, for `r ≠ 0`, `0 < θ < π` and `-π < φ ≤ π`, `convertSpherical`
appends the point `(|r| sin θ cos φ, |r| sin θ sin φ, |r| cos θ)`, and the standard inverse
recovers `(|r|, θ, φ)` from it: `sqrt (x² + y² + z²) = |r|`,
`arccos (z / sqrt (x² + y² + z²)) = θ` and `atan2 (y, x) = φ` (the argument of the complex
number `x + y i`); the sign of `r` does not matter. -/
theorem convertSpherical_roundtrip (r θ φ : ℝ) (v : List ℝ) (hr : r ≠ 0)
    (hθ : 0 < θ ∧ θ < Real.pi) (hφ : -Real.pi < φ ∧ φ ≤ Real.pi) :
    ∃ x y z : ℝ,
      convertSpherical ⟨Real.sin, Real.cos, Real.sqrt, Real.pi⟩ r θ φ v = v ++ [x, y, z] ∧
      x = |r| * Real.sin θ * Real.cos φ ∧
      y = |r| * Real.sin θ * Real.sin φ ∧
      z = |r| * Real.cos θ ∧
      Real.sqrt (x ^ 2 + y ^ 2 + z ^ 2) = |r| ∧
      Real.arccos (z / Real.sqrt (x ^ 2 + y ^ 2 + z ^ 2)) = θ ∧
      Complex.arg ⟨x, y⟩ = φ ∧
      convertSpherical ⟨Real.sin, Real.cos, Real.sqrt, Real.pi⟩ (-r) θ φ v =
        convertSpherical ⟨Real.sin, Real.cos, Real.sqrt, Real.pi⟩ r θ φ v := by
  have habs : 0 < |r| := abs_pos.mpr hr
  have hsin : 0 < Real.sin θ := Real.sin_pos_of_pos_of_lt_pi hθ.1 hθ.2
  have hnorm : Real.sqrt ((|r| * Real.sin θ * Real.cos φ) ^ 2 + (|r| * Real.sin θ * Real.sin φ) ^ 2
      + (|r| * Real.cos θ) ^ 2) = |r| := by
    have : (|r| * Real.sin θ * Real.cos φ) ^ 2 + (|r| * Real.sin θ * Real.sin φ) ^ 2
        + (|r| * Real.cos θ) ^ 2 = |r| ^ 2 := by
      have h1 := Real.sin_sq_add_cos_sq θ
      have h2 := Real.sin_sq_add_cos_sq φ
      linear_combination (|r| ^ 2 * Real.sin θ ^ 2) * h2 + |r| ^ 2 * h1
    rw [this, Real.sqrt_sq habs.le]
  refine ⟨_, _, _, ?_, rfl, rfl, rfl, hnorm, ?_, ?_, ?_⟩
  · simp [convertSpherical]
  · rw [hnorm, mul_div_cancel_left₀ _ habs.ne']
    exact Real.arccos_cos hθ.1.le hθ.2.le
  · have h := Complex.arg_mul_cos_add_sin_mul_I (mul_pos habs hsin) (Set.mem_Ioc.mpr hφ)
    have heq : (⟨|r| * Real.sin θ * Real.cos φ, |r| * Real.sin θ * Real.sin φ⟩ : ℂ)
        = ((|r| * Real.sin θ : ℝ) : ℂ) * (Complex.cos φ + Complex.sin φ * Complex.I) := by
      apply Complex.ext
      · simp [← Complex.ofReal_cos, ← Complex.ofReal_sin]
      · simp [← Complex.ofReal_cos, ← Complex.ofReal_sin]
    rw [heq]
    exact h
  · simp [convertSpherical]

/-- Witness for C8: radius `-2`, polar angle `π / 2`, azimuth `0`. -/
theorem convertSpherical_roundtrip_witness :
    ∃ x y z : ℝ,
      convertSpherical ⟨Real.sin, Real.cos, Real.sqrt, Real.pi⟩ (-2) (Real.pi / 2) 0 []
        = [] ++ [x, y, z] ∧
      x = |(-2 : ℝ)| * Real.sin (Real.pi / 2) * Real.cos 0 ∧
      y = |(-2 : ℝ)| * Real.sin (Real.pi / 2) * Real.sin 0 ∧
      z = |(-2 : ℝ)| * Real.cos (Real.pi / 2) ∧
      Real.sqrt (x ^ 2 + y ^ 2 + z ^ 2) = |(-2 : ℝ)| ∧
      Real.arccos (z / Real.sqrt (x ^ 2 + y ^ 2 + z ^ 2)) = Real.pi / 2 ∧
      Complex.arg ⟨x, y⟩ = 0 ∧
      convertSpherical ⟨Real.sin, Real.cos, Real.sqrt, Real.pi⟩ (-(-2)) (Real.pi / 2) 0 [] =
        convertSpherical ⟨Real.sin, Real.cos, Real.sqrt, Real.pi⟩ (-2) (Real.pi / 2) 0 [] :=
  convertSpherical_roundtrip (-2) (Real.pi / 2) 0 [] (by norm_num)
    ⟨by positivity, by linarith [Real.pi_pos]⟩
    ⟨by linarith [Real.pi_pos], Real.pi_pos.le⟩

section RandomLemmas

variable {α : Type} [LinearOrderedField α]

theorem randomizeN_loop_length (fl : α → α) (draw : Nat → α) (a : List α) :
    ∀ (i : Nat) (b : List α),
      (randomizeN.loop fl draw i a b).length = b.length + a.length := by
  induction a with
  | nil => intro i b; simp [randomizeN.loop]
  | cons x it ih =>
    intro i b
    simp only [randomizeN.loop, ih, List.length_append, List.length_cons, List.length_nil]
    omega

/-- The loop of `randomizeN` in closed form: the `k`-th element of `a` gets the draw number
`i + k`, and the sum is rounded. -/
theorem randomizeN_loop_eq (fl : α → α) (draw : Nat → α) (a : List α) :
    ∀ (i : Nat) (b : List α),
      randomizeN.loop fl draw i a b
        = b ++ (List.range a.length).map (fun k => fl (a.getD k 0 + draw (i + k))) := by
  induction a with
  | nil => intro i b; simp [randomizeN.loop]
  | cons x it ih =>
    intro i b
    simp only [randomizeN.loop, ih, List.length_cons, List.range_succ_eq_map, List.map_cons,
      List.map_map, List.append_assoc, List.singleton_append, List.getD_cons_zero, add_zero]
    congr 2
    apply List.map_congr_left
    intro k _
    simp [Nat.add_assoc, Nat.add_comm 1 k]

/-- The `i`-th value `randomizeN` stores. -/
theorem randomizeN_getD (fl : α → α) (distr : RandomSource α) (range : α) (a : List α)
    (i : Nat) (hi : i < a.length) :
    (randomizeN fl distr range a []).getD i 0
      = fl (a.getD i 0 + distr (-range) range i) := by
  simp [randomizeN, randomizeN_loop_eq, List.getD_eq_getElem?_getD, List.getElem?_map,
    List.getElem?_range hi]

theorem randomizeN_length (fl : α → α) (distr : RandomSource α) (range : α) (a : List α) :
    (randomizeN fl distr range a []).length = a.length := by
  simp [randomizeN, randomizeN_loop_length]

end RandomLemmas

section RoundingLemmas

/-- Rounding to the nearest integer moves a rational by at most one half. -/
theorem roundHalfEven_sub_le (q : ℚ) : |(roundHalfEven q : ℚ) - q| ≤ 1 / 2 := by
  have h1 : (⌊q⌋ : ℚ) ≤ q := Int.floor_le q
  have h2 : q < ⌊q⌋ + 1 := Int.lt_floor_add_one q
  unfold roundHalfEven
  split_ifs with c1 c2 c3
  · rw [abs_le]; constructor <;> linarith
  · rw [abs_le]; push_cast; constructor <;> linarith
  · rw [abs_le]; constructor <;> linarith
  · rw [abs_le]; push_cast; constructor <;> linarith

/-- An integer at a distance below one half is the rounding. -/
theorem roundHalfEven_eq_of_lt (q : ℚ) (n : ℤ) (h : |q - n| < 1 / 2) :
    roundHalfEven q = n := by
  rw [abs_lt] at h
  have h1 : (⌊q⌋ : ℚ) ≤ q := Int.floor_le q
  have h2 : q < ⌊q⌋ + 1 := Int.lt_floor_add_one q
  have hn : (n : ℚ) - 2 < ⌊q⌋ ∧ (⌊q⌋ : ℚ) < n + 1 := by constructor <;> linarith
  have hn2 : n - 2 < ⌊q⌋ ∧ ⌊q⌋ < n + 1 := by
    constructor
    · exact_mod_cast hn.1
    · exact_mod_cast hn.2
  unfold roundHalfEven
  rcases (by omega : ⌊q⌋ = n ∨ ⌊q⌋ = n - 1) with e | e
  · have e2 : (⌊q⌋ : ℚ) = n := by exact_mod_cast e
    rw [if_pos (by linarith), e]
  · have e2 : (⌊q⌋ : ℚ) = n - 1 := by rw [e]; push_cast; ring
    rw [if_neg (by linarith), if_pos (by linarith), e]
    ring

/-- The binade of a rational, from the two powers of two that enclose it. -/
theorem binade_eq (x : ℚ) (e : ℤ) (h1 : (2 : ℚ) ^ e ≤ |x|) (h2 : |x| < (2 : ℚ) ^ (e + 1))
    (h3 : -126 ≤ e) : binade x = e := by
  have hpos : 0 < |x| := lt_of_lt_of_le (by positivity) h1
  have hlog : Int.log 2 |x| = e := by
    apply le_antisymm
    · have := (Int.lt_zpow_iff_log_lt (b := 2) (by norm_num) hpos (x := e + 1)).mp
        (by exact_mod_cast h2)
      omega
    · exact (Int.zpow_le_iff_le_log (b := 2) (by norm_num) hpos).mp (by exact_mod_cast h1)
  rw [binade, hlog, max_eq_left h3]

/-- The rounding of a rational to `float`, from its binade and the nearest multiple of the
unit in the last place. -/
theorem binary32_eq (x : ℚ) (e n : ℤ) (h1 : (2 : ℚ) ^ e ≤ |x|) (h2 : |x| < (2 : ℚ) ^ (e + 1))
    (h3 : -126 ≤ e) (h4 : |x / 2 ^ (e - 23) - n| < 1 / 2) :
    binary32 x = n * 2 ^ (e - 23) := by
  rw [binary32, binade_eq x e h1 h2 h3, roundHalfEven_eq_of_lt _ n h4]

theorem binary32_zero : binary32 0 = 0 := by
  simp [binary32, roundHalfEven]

/-- The rounding to `float` moves a rational by at most half a unit in the last place: a
relative `2 ^ -24`, or `2 ^ -150` in the subnormal range. -/
theorem binary32_error (x : ℚ) : |binary32 x - x| ≤ |x| / 2 ^ 24 + 1 / 2 ^ 150 := by
  rcases eq_or_ne x 0 with rfl | hx
  · rw [binary32_zero]; simp
  have hpos : 0 < |x| := abs_pos.mpr hx
  have hu : (0 : ℚ) < 2 ^ (binade x - 23) := by positivity
  have hr := roundHalfEven_sub_le (x / 2 ^ (binade x - 23))
  have e1 : binary32 x - x
      = ((roundHalfEven (x / 2 ^ (binade x - 23)) : ℚ) - x / 2 ^ (binade x - 23))
          * 2 ^ (binade x - 23) := by
    rw [binary32]; field_simp
  rw [e1, abs_mul, abs_of_pos hu]
  have h2 : (2 : ℚ) ^ (binade x - 23) ≤ 2 * (|x| / 2 ^ 24 + 1 / 2 ^ 150) := by
    have hlog : (2 : ℚ) ^ (Int.log 2 |x|) ≤ |x| := by
      exact_mod_cast Int.zpow_log_le_self (b := 2) (by norm_num) hpos
    rcases le_total (Int.log 2 |x|) (-126) with hle | hge
    · rw [binade, max_eq_right hle]
      have : (2 : ℚ) ^ ((-126 : ℤ) - 23) = 2 * (1 / 2 ^ 150) := by norm_num [zpow_neg]
      rw [this]
      have : 0 ≤ |x| / 2 ^ 24 := by positivity
      linarith
    · rw [binade, max_eq_left hge, zpow_sub₀ (by norm_num : (2 : ℚ) ≠ 0)]
      have : (2 : ℚ) ^ (23 : ℤ) = 2 ^ 23 := by norm_num
      rw [this, div_le_iff₀ (by positivity)]
      have : (0 : ℚ) ≤ 1 / 2 ^ 150 := by positivity
      nlinarith
  calc |(roundHalfEven (x / 2 ^ (binade x - 23)) : ℚ) - x / 2 ^ (binade x - 23)|
        * 2 ^ (binade x - 23)
      ≤ 1 / 2 * 2 ^ (binade x - 23) := mul_le_mul_of_nonneg_right hr hu.le
    _ ≤ |x| / 2 ^ 24 + 1 / 2 ^ 150 := by linarith

/-- The rounding of `0.1`: the `float` that `genSphere` passes as `range`. -/
theorem binary32_tenth : binary32 (1 / 10) = 13421773 / 134217728 := by
  rw [binary32_eq _ (-4) 13421773 (by norm_num [abs_of_pos]) (by norm_num [abs_of_pos])
    (by norm_num) (by norm_num [abs_lt])]
  norm_num

theorem binary32_one : binary32 1 = 1 := by
  rw [binary32_eq _ 0 8388608 (by norm_num) (by norm_num) (by norm_num) (by norm_num)]
  norm_num

theorem binary32_half : binary32 (1 / 2) = 1 / 2 := by
  rw [binary32_eq _ (-1) 8388608 (by norm_num [abs_of_pos]) (by norm_num [abs_of_pos])
    (by norm_num) (by norm_num)]
  norm_num

end RoundingLemmas

/-- C9, as amended: for every `range ≥ 0`, every input `a` of `float` values, an empty output
and any draws of the random source that lie in `[-range, range]`, as long as no sum can
overflow (`|a[i]| + range < 2 ^ 128 - 2 ^ 103`), `randomizeN` returns a list as long as `a`
whose `i`-th element is the `float` nearest to `a[i] + r_i`, `r_i` being the `i`-th draw.  It
differs from that sum by at most `|a[i] + r_i| / 2 ^ 24 + 1 / 2 ^ 150` and from `a[i]` by at
most `range + (|a[i]| + range) / 2 ^ 24 + 1 / 2 ^ 150`; with `range = 0` the output is the
input, whatever the source draws. -/
theorem randomizeN_spec (distr : RandomSource ℚ) (range : ℚ) (a : List ℚ)
    (hrange : 0 ≤ range) (hdistr : distr.InRange (-range) range)
    (ha : ∀ x ∈ a, binary32 x = x)
    (hfin : ∀ x ∈ a, |x| + range < 2 ^ 128 - 2 ^ 103) :
    (randomizeN binary32 distr range a []).length = a.length ∧
    (∀ i, i < a.length →
      (randomizeN binary32 distr range a []).getD i 0
        = binary32 (a.getD i 0 + distr (-range) range i) ∧
      |(randomizeN binary32 distr range a []).getD i 0 - (a.getD i 0 + distr (-range) range i)|
        ≤ |a.getD i 0 + distr (-range) range i| / 2 ^ 24 + 1 / 2 ^ 150 ∧
      |(randomizeN binary32 distr range a []).getD i 0 - a.getD i 0|
        ≤ range + (|a.getD i 0| + range) / 2 ^ 24 + 1 / 2 ^ 150) ∧
    (∀ distr0 : RandomSource ℚ, distr0.InRange (-0) 0 →
      randomizeN binary32 distr0 0 a [] = a) := by
  have hrange0 := hrange
  have hfin0 := hfin
  refine ⟨randomizeN_length _ _ _ _, ?_, ?_⟩
  · intro i hi
    have hget := randomizeN_getD binary32 distr range a i hi
    have hd := hdistr i
    have herr := binary32_error (a.getD i 0 + distr (-range) range i)
    have habs : |distr (-range) range i| ≤ range := abs_le.mpr hd
    have hsum : |a.getD i 0 + distr (-range) range i| ≤ |a.getD i 0| + range :=
      (abs_add _ _).trans (by linarith)
    refine ⟨hget, ?_, ?_⟩
    · rw [hget]; exact herr
    · rw [hget]
      have htri : |binary32 (a.getD i 0 + distr (-range) range i) - a.getD i 0|
          ≤ |binary32 (a.getD i 0 + distr (-range) range i)
              - (a.getD i 0 + distr (-range) range i)| + |distr (-range) range i| := by
        have h := abs_add (binary32 (a.getD i 0 + distr (-range) range i)
          - (a.getD i 0 + distr (-range) range i)) (distr (-range) range i)
        have e : binary32 (a.getD i 0 + distr (-range) range i)
            - (a.getD i 0 + distr (-range) range i) + distr (-range) range i
            = binary32 (a.getD i 0 + distr (-range) range i) - a.getD i 0 := by ring
        rw [e] at h
        exact h
      have hdiv : |a.getD i 0 + distr (-range) range i| / 2 ^ 24
          ≤ (|a.getD i 0| + range) / 2 ^ 24 :=
        div_le_div_of_nonneg_right hsum (by positivity)
      linarith
  · intro distr0 hd0
    apply List.ext_getElem
    · exact randomizeN_length _ _ _ _
    · intro i h1 h2
      have hget := randomizeN_getD binary32 distr0 0 a i h2
      have hz : distr0 (-0) 0 i = 0 := le_antisymm (hd0 i).2 (by simpa using (hd0 i).1)
      rw [hz, add_zero, List.getD_eq_getElem _ _ h1, List.getD_eq_getElem _ _ h2] at hget
      rw [hget]
      exact ha _ (List.getElem_mem h2)

/-- Witness for C9 as amended: the `float` values `1` and `0.5`, the range `0.1f` and a source
that always draws the upper bound. -/
theorem randomizeN_spec_witness :
    (randomizeN binary32 (fun _ hi _ => hi) (13421773 / 134217728) [1, 1 / 2] []).length
      = ([1, 1 / 2] : List ℚ).length ∧
    (∀ i, i < ([1, 1 / 2] : List ℚ).length →
      (randomizeN binary32 (fun _ hi _ => hi) (13421773 / 134217728) [1, 1 / 2] []).getD i 0
        = binary32 (([1, 1 / 2] : List ℚ).getD i 0 + 13421773 / 134217728) ∧
      |(randomizeN binary32 (fun _ hi _ => hi) (13421773 / 134217728) [1, 1 / 2] []).getD i 0
          - (([1, 1 / 2] : List ℚ).getD i 0 + 13421773 / 134217728)|
        ≤ |([1, 1 / 2] : List ℚ).getD i 0 + 13421773 / 134217728| / 2 ^ 24 + 1 / 2 ^ 150 ∧
      |(randomizeN binary32 (fun _ hi _ => hi) (13421773 / 134217728) [1, 1 / 2] []).getD i 0
          - ([1, 1 / 2] : List ℚ).getD i 0|
        ≤ 13421773 / 134217728 + (|([1, 1 / 2] : List ℚ).getD i 0| + 13421773 / 134217728) / 2 ^ 24
          + 1 / 2 ^ 150) ∧
    (∀ distr0 : RandomSource ℚ, distr0.InRange (-0) 0 →
      randomizeN binary32 distr0 0 [1, 1 / 2] [] = [1, 1 / 2]) :=
  randomizeN_spec (fun _ hi _ => hi) (13421773 / 134217728) [1, 1 / 2] (by norm_num)
    (fun _ => ⟨by norm_num, le_refl _⟩)
    (by
      intro x hx
      simp only [List.mem_cons, List.mem_singleton, List.mem_nil_iff, or_false] at hx
      rcases hx with rfl | rfl
      · exact binary32_one
      · exact binary32_half)
    (by
      intro x hx
      simp only [List.mem_cons, List.mem_singleton, List.mem_nil_iff, or_false] at hx
      rcases hx with rfl | rfl <;> norm_num [abs_of_pos])

/-- Counterexample to C9 as stated: with the range `0.1f = 13421773 / 2 ^ 27` that `genSphere`
passes (the rounding of `0.1`), the input `1.0f` and the draw `13421772 / 2 ^ 27` (the `float`
just below `0.1f`, inside `[-range, range]`), the sum `1 + 13421772 / 2 ^ 27` is rounded up to
the `float` `9227469 / 2 ^ 23`, so `b[0] - a[0] = 838861 / 2 ^ 23` exceeds `range`. -/
theorem randomizeN_bound_fails :
    binary32 (1 / 10) = 13421773 / 134217728 ∧
    (0 : ℚ) ≤ 13421773 / 134217728 ∧
    RandomSource.InRange (fun _ _ _ => (13421772 / 134217728 : ℚ))
      (-(13421773 / 134217728)) (13421773 / 134217728) ∧
    randomizeN binary32 (fun _ _ _ => 13421772 / 134217728) (13421773 / 134217728) [1] []
      = [9227469 / 8388608] ∧
    ¬ |(randomizeN binary32 (fun _ _ _ => 13421772 / 134217728)
          (13421773 / 134217728) [1] []).getD 0 0 - ([1] : List ℚ).getD 0 0|
        ≤ 13421773 / 134217728 := by
  have hval : binary32 (1 + 13421772 / 134217728) = 9227469 / 8388608 := by
    rw [binary32_eq _ 0 9227469 (by norm_num [abs_of_pos]) (by norm_num [abs_of_pos])
      (by norm_num) (by norm_num [abs_lt])]
    norm_num
  have hrun : randomizeN binary32 (fun _ _ _ => 13421772 / 134217728)
      (13421773 / 134217728) [1] [] = [9227469 / 8388608] := by
    simp only [randomizeN, randomizeN.loop, List.nil_append, hval]
  refine ⟨binary32_tenth, by norm_num, fun _ => ⟨by norm_num, by norm_num⟩, hrun, ?_⟩
  rw [hrun]
  norm_num [abs_of_pos]

/-! ## Theorems: the scene update -/

section GlmLemmas

/-- Over the reals, a rotation by the angle `0` leaves every matrix unchanged. -/
theorem rotate_zero_angle (m : Mat4 ℝ) :
    glm.rotate ⟨Real.sin, Real.cos, Real.sqrt, Real.pi⟩ m 0 ⟨0, 0, 1⟩ = m := by
  rcases m with ⟨⟨x0, y0, z0, w0⟩, ⟨x1, y1, z1, w1⟩, ⟨x2, y2, z2, w2⟩, c3⟩
  simp [glm.rotate, glm.normalize, glm.add4, glm.smul4]

/-- The translation column of the earth transform, for any scalar type. -/
theorem update_g_earth_c3 {α : Type} [LinearOrderedField α] (ops : FloatOps α)
    (g_camera : Camera α) (t w : α) (earth moon : Mesh α) :
    (update ops g_camera t earth moon w).g_earth.c3
      = ⟨kRadOrbitEarth * ops.cos (t * w), kRadOrbitEarth * ops.sin (t * w), 0, 1⟩ := by
  simp [update, glm.scale, glm.rotate, glm.translate, glm.mat4_1, glm.add4, glm.smul4]

end GlmLemmas

/-- C10: over the reals and for a non-zero angular velocity `w`, the earth transform computed
by `update` (stored in `g_earth` and in the earth mesh) has translation column
`(kRadOrbitEarth cos (t w), kRadOrbitEarth sin (t w), 0)`; at `t = 0` it is `(10, 0, 0)`, the
spin rotation by `2 t w` is the identity and the transform is tilt and scale only; at
`t = 2π / w` the translation column is again `(10, 0, 0)`. -/
theorem update_earth_orbit (g_camera : Camera ℝ) (earth moon : Mesh ℝ) (t w : ℝ)
    (hw : w ≠ 0) :
    (update ⟨Real.sin, Real.cos, Real.sqrt, Real.pi⟩ g_camera t earth moon w).earth.transformation
      = (update ⟨Real.sin, Real.cos, Real.sqrt, Real.pi⟩ g_camera t earth moon w).g_earth ∧
    (update ⟨Real.sin, Real.cos, Real.sqrt, Real.pi⟩ g_camera t earth moon w).g_earth.c3
      = ⟨kRadOrbitEarth * Real.cos (t * w), kRadOrbitEarth * Real.sin (t * w), 0, 1⟩ ∧
    (update ⟨Real.sin, Real.cos, Real.sqrt, Real.pi⟩ g_camera 0 earth moon w).g_earth.c3
      = ⟨10, 0, 0, 1⟩ ∧
    (∀ m : Mat4 ℝ,
      glm.rotate ⟨Real.sin, Real.cos, Real.sqrt, Real.pi⟩ m (2 * (0 * w)) ⟨0, 0, 1⟩ = m) ∧
    (update ⟨Real.sin, Real.cos, Real.sqrt, Real.pi⟩ g_camera 0 earth moon w).g_earth
      = glm.scale
          (glm.rotate ⟨Real.sin, Real.cos, Real.sqrt, Real.pi⟩
            (glm.translate glm.mat4_1 ⟨10, 0, 0⟩)
            (glm.radians ⟨Real.sin, Real.cos, Real.sqrt, Real.pi⟩ (47 / 2)) ⟨0, 0, 1⟩)
          ⟨kSizeEarth, kSizeEarth, kSizeEarth⟩ ∧
    (update ⟨Real.sin, Real.cos, Real.sqrt, Real.pi⟩ g_camera (2 * Real.pi / w) earth moon w).g_earth.c3
      = ⟨10, 0, 0, 1⟩ := by
  refine ⟨rfl, update_g_earth_c3 _ _ _ _ _ _, ?_, ?_, ?_, ?_⟩
  · rw [update_g_earth_c3]
    simp [kRadOrbitEarth]
  · intro m
    rw [zero_mul, mul_zero]
    exact rotate_zero_angle m
  · simp only [update, zero_mul, mul_zero, rotate_zero_angle]
    simp [kRadOrbitEarth]
  · rw [update_g_earth_c3, div_mul_cancel₀ _ hw]
    simp [kRadOrbitEarth]

/-- Witness for C10: the default angular velocity `0.5` at time `1`. -/
theorem update_earth_orbit_witness :
    (update ⟨Real.sin, Real.cos, Real.sqrt, Real.pi⟩ {} 1 {} {} (1 / 2)).earth.transformation
      = (update ⟨Real.sin, Real.cos, Real.sqrt, Real.pi⟩ {} 1 {} {} (1 / 2)).g_earth ∧
    (update ⟨Real.sin, Real.cos, Real.sqrt, Real.pi⟩ {} 1 {} {} (1 / 2)).g_earth.c3
      = ⟨kRadOrbitEarth * Real.cos (1 * (1 / 2)), kRadOrbitEarth * Real.sin (1 * (1 / 2)), 0, 1⟩ ∧
    (update ⟨Real.sin, Real.cos, Real.sqrt, Real.pi⟩ {} 0 {} {} (1 / 2)).g_earth.c3
      = ⟨10, 0, 0, 1⟩ ∧
    (∀ m : Mat4 ℝ,
      glm.rotate ⟨Real.sin, Real.cos, Real.sqrt, Real.pi⟩ m (2 * (0 * (1 / 2))) ⟨0, 0, 1⟩ = m) ∧
    (update ⟨Real.sin, Real.cos, Real.sqrt, Real.pi⟩ {} 0 {} {} (1 / 2)).g_earth
      = glm.scale
          (glm.rotate ⟨Real.sin, Real.cos, Real.sqrt, Real.pi⟩
            (glm.translate glm.mat4_1 ⟨10, 0, 0⟩)
            (glm.radians ⟨Real.sin, Real.cos, Real.sqrt, Real.pi⟩ (47 / 2)) ⟨0, 0, 1⟩)
          ⟨kSizeEarth, kSizeEarth, kSizeEarth⟩ ∧
    (update ⟨Real.sin, Real.cos, Real.sqrt, Real.pi⟩ {} (2 * Real.pi / (1 / 2)) {} {} (1 / 2)).g_earth.c3
      = ⟨10, 0, 0, 1⟩ :=
  update_earth_orbit {} {} {} 1 (1 / 2) (by norm_num)

/-! ## Theorems: the sphere tessellation -/

section BodyLemmas

variable {α : Type} [LinearOrderedField α]

theorem range9 : List.range 9 = [0, 1, 2, 3, 4, 5, 6, 7, 8] := rfl

/-- The method `addTriangle` on nine coordinates: it never fails, appends the nine coordinates, the
three indices `size + 2`, `size + 1`, `size` and the negated normal, and touches nothing
else. -/
theorem addTriangle_nine (ops : FloatOps α) (m : Mesh α) (v0 v1 v2 v3 v4 v5 v6 v7 v8 : α) :
    m.addTriangle ops [v0, v1, v2, v3, v4, v5, v6, v7, v8] =
      some { m with
        m_vertexPositions := m.m_vertexPositions ++ [v0, v1, v2, v3, v4, v5, v6, v7, v8]
        m_triangleIndices := m.m_triangleIndices ++
          [(m.m_vertexPositions.length / 3 + 2) % 2 ^ 32,
           (m.m_vertexPositions.length / 3 + 1) % 2 ^ 32,
           (m.m_vertexPositions.length / 3) % 2 ^ 32]
        m_triangleNormals := m.m_triangleNormals ++
          ((normal ops [v0, v1, v2] [v3, v4, v5] [v6, v7, v8] []).getD []).map (fun x => -x) } := by
  simp only [Mesh.addTriangle, List.length_cons, List.length_nil, Nat.reduceAdd, le_refl,
      if_true, List.getD_cons_zero, List.getD_cons_succ, normal_three, range9, range3,
      Option.bind_eq_bind, Option.some_bind, List.foldl_cons, List.foldl_nil,
      List.append_assoc, List.singleton_append, List.cons_append, List.nil_append,
      Nat.add_sub_cancel, Nat.add_zero, Nat.sub_zero, Option.getD_some, List.map_cons,
      List.map_nil]
  rfl

end BodyLemmas

section LoopBody

variable {α : Type} [LinearOrderedField α]

/-- One pass of the loop body of `genSphere` never fails; it appends eighteen coordinates,
twelve texture coordinates, six indices and six triangle-normal values. -/
theorem body_eq (ops : FloatOps α) (resolution : Nat) (theta phi : α) (m : Mesh α) :
    genSphere.body ops resolution theta phi m =
      some { m with
        m_vertexPositions := m.m_vertexPositions ++ quadPositions ops resolution theta phi
        m_vertexTexCoords := m.m_vertexTexCoords ++ quadTexCoords resolution theta phi
        m_triangleIndices := m.m_triangleIndices ++
          [(m.m_vertexPositions.length / 3 + 2) % 2 ^ 32,
           (m.m_vertexPositions.length / 3 + 1) % 2 ^ 32,
           (m.m_vertexPositions.length / 3) % 2 ^ 32,
           ((m.m_vertexPositions.length + 9) / 3 + 2) % 2 ^ 32,
           ((m.m_vertexPositions.length + 9) / 3 + 1) % 2 ^ 32,
           ((m.m_vertexPositions.length + 9) / 3) % 2 ^ 32]
        m_triangleNormals := m.m_triangleNormals ++ quadNormals ops resolution theta phi } := by
  simp only [genSphere.body, convertSpherical, Mesh.pushTexCoord, List.nil_append,
    List.append_assoc, List.singleton_append, List.cons_append, addTriangle_nine,
    Option.bind_eq_bind, Option.some_bind, quadPositions, quadTexCoords, quadNormals,
    gridPoint, gridTexCoord, storedNormal, List.length_append, List.length_cons,
    List.length_nil]

end LoopBody

section ListLemmas

/-- Two nested counted loops are one loop over the pairs of counters in row-major order. -/
theorem foldlM_nested {σ ι κ : Type} (f : ι → κ → σ → Option σ) (l₂ : List κ) :
    ∀ (l₁ : List ι) (s : σ),
      l₁.foldlM (fun s i => l₂.foldlM (fun s j => f i j s) s) s =
        (l₁.flatMap (fun i => l₂.map (fun j => (i, j)))).foldlM (fun s p => f p.1 p.2 s) s := by
  intro l₁
  induction l₁ with
  | nil => intro s; rfl
  | cons i l ih =>
    intro s
    rw [List.foldlM_cons, List.flatMap_cons, List.foldlM_append, List.foldlM_map]
    congr 1
    funext s'
    exact ih s'

/-- The pairs of counters of the two loops, by quad number. -/
theorem grid_eq (r : Nat) (hr : 0 < r) :
    ∀ n : Nat, (List.range n).flatMap (fun i => (List.range r).map (fun j => (i, j)))
      = (List.range (n * r)).map (fun q => (q / r, q % r)) := by
  intro n
  induction n with
  | zero => simp
  | succ n ih =>
    rw [List.range_succ, List.flatMap_append, ih, List.flatMap_singleton, Nat.succ_mul,
      List.range_add, List.map_append, List.map_map]
    congr 1
    apply List.map_congr_left
    intro j hj
    have hj' : j < r := List.mem_range.mp hj
    simp only [Function.comp_apply, Prod.mk.injEq]
    constructor
    · rw [Nat.mul_comm, Nat.mul_add_div hr, Nat.div_eq_of_lt hj', Nat.add_zero]
    · rw [Nat.mul_comm, Nat.mul_add_mod, Nat.mod_eq_of_lt hj']

/-- Reading the chunk number `q` out of a concatenation of chunks of length `k`. -/
theorem drop_take_flatMap_range {β : Type} (f : Nat → List β) (k : Nat)
    (hf : ∀ i, (f i).length = k) :
    ∀ (n q : Nat), q < n → (((List.range n).flatMap f).drop (k * q)).take k = f q := by
  have hlen : ∀ n, ((List.range n).flatMap f).length = k * n := by
    intro n
    induction n with
    | zero => simp
    | succ n ih =>
      rw [List.range_succ, List.flatMap_append, List.length_append, ih, List.flatMap_singleton,
        hf, Nat.mul_succ]
  intro n
  induction n with
  | zero => intro q hq; omega
  | succ n ih =>
    intro q hq
    rw [List.range_succ, List.flatMap_append, List.flatMap_singleton]
    rcases Nat.lt_succ_iff_lt_or_eq.mp hq with hlt | heq
    · have h1 : k * q + k ≤ k * n := by
        calc k * q + k = k * (q + 1) := by ring
          _ ≤ k * n := Nat.mul_le_mul_left k hlt
      rw [List.drop_append_of_le_length (by rw [hlen]; omega),
        List.take_append_of_le_length (by rw [List.length_drop, hlen]; omega)]
      exact ih q hlt
    · subst heq
      have h2 : k * q = ((List.range q).flatMap f).length := (hlen q).symm
      rw [h2, List.drop_left, ← hf q, List.take_length]

theorem length_flatMap_range {β : Type} (f : Nat → List β) (k : Nat)
    (hf : ∀ i, (f i).length = k) (n : Nat) : ((List.range n).flatMap f).length = k * n := by
  induction n with
  | zero => simp
  | succ n ih =>
    rw [List.range_succ, List.flatMap_append, List.length_append, ih, List.flatMap_singleton,
      hf, Nat.mul_succ]

end ListLemmas

section SphereLemmas

variable {α : Type} [LinearOrderedField α]

theorem quadPositions_length (ops : FloatOps α) (r : Nat) (theta phi : α) :
    (quadPositions ops r theta phi).length = 18 := by
  simp [quadPositions, gridPoint, convertSpherical]

theorem quadTexCoords_length (r : Nat) (theta phi : α) :
    (quadTexCoords r theta phi).length = 12 := by
  simp [quadTexCoords, gridTexCoord]

theorem triangleIndices_length (k : Nat) : (triangleIndices k).length = 3 := rfl

/-- The loop body run over a list of counter pairs, from a mesh that holds `q0` quads. -/
theorem foldlM_body (ops : FloatOps α) (r : Nat) :
    ∀ (l : List (Nat × Nat)) (m : Mesh α) (q0 : Nat), m.m_vertexPositions.length = 18 * q0 →
      l.foldlM (fun m p => genSphere.body ops r ((p.1 : Nat) : α) ((p.2 : Nat) : α) m) m =
        some { m with
          m_vertexPositions := m.m_vertexPositions ++
            l.flatMap (fun p => quadPositions ops r ((p.1 : Nat) : α) ((p.2 : Nat) : α))
          m_vertexTexCoords := m.m_vertexTexCoords ++
            l.flatMap (fun p => quadTexCoords r ((p.1 : Nat) : α) ((p.2 : Nat) : α))
          m_triangleIndices := m.m_triangleIndices ++
            (List.range (2 * l.length)).flatMap (fun k => triangleIndices (2 * q0 + k))
          m_triangleNormals := m.m_triangleNormals ++
            l.flatMap (fun p => quadNormals ops r ((p.1 : Nat) : α) ((p.2 : Nat) : α)) } := by
  intro l
  induction l with
  | nil => intro m q0 _; simp
  | cons p l ih =>
    intro m q0 hlen
    rw [List.foldlM_cons, body_eq, Option.bind_eq_bind, Option.some_bind, ih _ (q0 + 1)]
    · have h1 : m.m_vertexPositions.length / 3 = 3 * (2 * q0) := by omega
      have h2 : (m.m_vertexPositions.length + 9) / 3 = 3 * (2 * q0 + 1) := by omega
      have h3 : 2 * (l.length + 1) = 2 + 2 * l.length := by ring
      simp only [List.flatMap_cons, List.append_assoc, List.length_cons, h1, h2, h3,
        List.range_add, List.flatMap_append, List.flatMap_map]
      have e1 : (fun k => triangleIndices (2 * (q0 + 1) + k))
          = fun a => triangleIndices (2 * q0 + (2 + a)) := by
        funext k
        congr 1
        ring
      have e2 : (List.range 2).flatMap (fun k => triangleIndices (2 * q0 + k))
          = [(3 * (2 * q0) + 2) % 2 ^ 32, (3 * (2 * q0) + 1) % 2 ^ 32, 3 * (2 * q0) % 2 ^ 32,
              (3 * (2 * q0 + 1) + 2) % 2 ^ 32, (3 * (2 * q0 + 1) + 1) % 2 ^ 32,
              3 * (2 * q0 + 1) % 2 ^ 32] := by
        have range2 : List.range 2 = [0, 1] := rfl
        simp [range2, triangleIndices]
      rw [e1, e2]
    · simp only [List.length_append, hlen, quadPositions_length]
      ring

end SphereLemmas

section SphereClosedForm

variable {α : Type} [LinearOrderedField α]

/-- The function `genSphere` never fails, and the mesh it returns in closed form. -/
theorem genSphere_eq (ops : FloatOps α) (fl : α → α) (distr : RandomSource α) (r : Nat) :
    genSphere ops fl distr r =
      some { m_vertexPositions := spherePositions ops r
             m_vertexTexCoords := sphereTexCoords r
             m_triangleIndices := sphereIndices r
             m_triangleNormals := sphereTriangleNormals ops r
             m_vertexNormals :=
               randomizeN fl distr (fl (1 / 10)) (spherePositions ops r) [] } := by
  rcases Nat.eq_zero_or_pos r with h0 | hr
  · subst h0
    simp [genSphere, spherePositions, sphereTexCoords, sphereIndices, sphereTriangleNormals]
  · have key := foldlM_nested (fun (i j : Nat) (s : Mesh α) =>
        genSphere.body ops r ((i : Nat) : α) ((j : Nat) : α) s) (List.range r) (List.range r) {}
    rw [grid_eq r hr r, foldlM_body ops r _ _ 0 (by simp)] at key
    simp only [genSphere, key, Option.bind_eq_bind, Option.some_bind]
    simp [spherePositions, sphereTexCoords, sphereIndices, sphereTriangleNormals,
      List.flatMap_map, Function.comp_def]

theorem spherePositions_length (ops : FloatOps α) (r : Nat) :
    (spherePositions ops r).length = 18 * (r * r) :=
  length_flatMap_range _ 18 (fun _ => quadPositions_length ops r _ _) _

theorem sphereTexCoords_length (r : Nat) :
    (sphereTexCoords r : List α).length = 12 * (r * r) :=
  length_flatMap_range _ 12 (fun _ => quadTexCoords_length r _ _) _

theorem sphereIndices_length (r : Nat) : (sphereIndices r).length = 3 * (2 * (r * r)) :=
  length_flatMap_range _ 3 triangleIndices_length _

end SphereClosedForm

/-- C1: for every resolution `r` (so for every `r > 0`), `genSphere(r)` returns a mesh with
`18 r²` position floats (`6 r²` vertices), `12 r²` texture floats (`6 r²` pairs), `18 r²`
normal floats (as many as positions) and `6 r²` index entries (`2 r²` triangles); in
particular `genSphere(1)` has 6 vertices and 2 triangles. -/
theorem genSphere_counts {α : Type} [LinearOrderedField α] (ops : FloatOps α)
    (fl : α → α) (distr : RandomSource α) (r : Nat) :
    (∃ m : Mesh α, genSphere ops fl distr r = some m ∧
      m.m_vertexPositions.length = 3 * (6 * r ^ 2) ∧
      m.m_vertexTexCoords.length = 2 * (6 * r ^ 2) ∧
      m.m_vertexNormals.length = 3 * (6 * r ^ 2) ∧
      m.m_vertexNormals.length = m.m_vertexPositions.length ∧
      m.m_triangleIndices.length = 3 * (2 * r ^ 2)) ∧
    (∃ m : Mesh α, genSphere ops fl distr 1 = some m ∧
      m.m_vertexPositions.length = 3 * 6 ∧ m.m_triangleIndices.length = 3 * 2) := by
  refine ⟨⟨_, genSphere_eq ops fl distr r, ?_, ?_, ?_, ?_, ?_⟩,
    ⟨_, genSphere_eq ops fl distr 1, ?_, ?_⟩⟩
  · simp only [spherePositions_length]; ring
  · simp only [sphereTexCoords_length]; ring
  · simp only [randomizeN, randomizeN_loop_length, spherePositions_length, List.length_nil]; ring
  · simp only [randomizeN, randomizeN_loop_length, spherePositions_length, List.length_nil]; ring
  · simp only [sphereIndices_length]; ring
  · simp only [spherePositions_length]
  · simp only [sphereIndices_length]

section IndexLemmas

/-- The three index entries written for the triangle number `k`. -/
theorem sphereIndices_chunk (r k : Nat) (hk : k < 2 * (r * r)) :
    ((sphereIndices r).drop (3 * k)).take 3 = triangleIndices k :=
  drop_take_flatMap_range triangleIndices 3 triangleIndices_length _ k hk

theorem mem_triangleIndices_of_lt {k v : Nat} (hk : 3 * k + 2 < 2 ^ 32) :
    v ∈ triangleIndices k ↔ v / 3 = k ∧ v < 3 * k + 3 := by
  have h2 : (3 * k + 2) % 2 ^ 32 = 3 * k + 2 := Nat.mod_eq_of_lt hk
  have h1 : (3 * k + 1) % 2 ^ 32 = 3 * k + 1 := Nat.mod_eq_of_lt (by omega)
  have h0 : (3 * k) % 2 ^ 32 = 3 * k := Nat.mod_eq_of_lt (by omega)
  simp only [triangleIndices, h2, h1, h0, List.mem_cons, List.mem_singleton, List.mem_nil_iff,
    or_false]
  omega

/-- The function `genSphere` returns a mesh whose index list holds, for every triangle number `k`, the
three entries `triangleIndices k`. -/
theorem genSphere_chunks {α : Type} [LinearOrderedField α] (ops : FloatOps α)
    (fl : α → α) (distr : RandomSource α) (r : Nat) :
    ∃ m : Mesh α, genSphere ops fl distr r = some m ∧
      ∀ k, k < 2 * (r * r) → (m.m_triangleIndices.drop (3 * k)).take 3 = triangleIndices k :=
  ⟨_, genSphere_eq ops fl distr r, fun k hk => sphereIndices_chunk r k hk⟩

end IndexLemmas

/-- C3, as amended: for every resolution `r > 0` with `6 r² ≤ 2 ^ 32` and every triangle
number `k < 2 r²`, the three index entries written for the `k`-th triangle are `3k + 2`,
`3k + 1`, `3k`; the index list has length `3 · 2 r²`, every index is smaller than the number
of vertices `6 r²`, and every vertex is referenced by exactly one triangle. -/
theorem genSphere_indices {α : Type} [LinearOrderedField α] (ops : FloatOps α)
    (fl : α → α) (distr : RandomSource α) (r : Nat) (hr : 0 < r)
    (hbound : 6 * r ^ 2 ≤ 2 ^ 32) :
    ∃ m : Mesh α, genSphere ops fl distr r = some m ∧
      (∀ k, k < 2 * r ^ 2 →
        (m.m_triangleIndices.drop (3 * k)).take 3 = [3 * k + 2, 3 * k + 1, 3 * k]) ∧
      m.m_triangleIndices.length = 3 * (2 * r ^ 2) ∧
      m.m_vertexPositions.length = 3 * (6 * r ^ 2) ∧
      (∀ x ∈ m.m_triangleIndices, x < 6 * r ^ 2) ∧
      (∀ v, v < 6 * r ^ 2 →
        ∃! k, k < 2 * r ^ 2 ∧ v ∈ (m.m_triangleIndices.drop (3 * k)).take 3) := by
  have hr' := hr
  have hsq : r ^ 2 = r * r := pow_two r
  rw [hsq] at hbound
  simp only [hsq]
  have hsmall : ∀ k, k < 2 * (r * r) → 3 * k + 2 < 2 ^ 32 := by
    intro k hk
    omega
  refine ⟨_, genSphere_eq ops fl distr r, ?_, ?_, ?_, ?_, ?_⟩
  · intro k hk
    show ((sphereIndices r).drop (3 * k)).take 3 = _
    rw [sphereIndices_chunk r k hk]
    have h := hsmall k hk
    simp only [triangleIndices]
    rw [Nat.mod_eq_of_lt h, Nat.mod_eq_of_lt (by omega : 3 * k + 1 < 2 ^ 32),
      Nat.mod_eq_of_lt (by omega : 3 * k < 2 ^ 32)]
  · show (sphereIndices r).length = _
    rw [sphereIndices_length]
  · show (spherePositions ops r).length = _
    rw [spherePositions_length]
    ring
  · intro x hx
    change x ∈ sphereIndices r at hx
    obtain ⟨k, hk, hxk⟩ := List.mem_flatMap.mp hx
    have hk' : k < 2 * (r * r) := List.mem_range.mp hk
    have := (mem_triangleIndices_of_lt (hsmall k hk')).mp hxk
    omega
  · intro v hv
    refine ⟨v / 3, ⟨by omega, ?_⟩, ?_⟩
    · show v ∈ ((sphereIndices r).drop (3 * (v / 3))).take 3
      rw [sphereIndices_chunk r _ (by omega)]
      exact (mem_triangleIndices_of_lt (hsmall _ (by omega))).mpr ⟨rfl, by omega⟩
    · rintro k ⟨hk, hvk⟩
      change v ∈ ((sphereIndices r).drop (3 * k)).take 3 at hvk
      rw [sphereIndices_chunk r k hk] at hvk
      exact ((mem_triangleIndices_of_lt (hsmall k hk)).mp hvk).1.symm

/-- Witness for C3 as amended: resolution 2, on rational scalars. -/
theorem genSphere_indices_witness :
    ∃ m : Mesh ℚ,
      genSphere ⟨fun x => x, fun x => x, fun x => x, 3⟩ binary32 (fun _ _ _ => 0) 2 = some m ∧
      (∀ k, k < 2 * 2 ^ 2 →
        (m.m_triangleIndices.drop (3 * k)).take 3 = [3 * k + 2, 3 * k + 1, 3 * k]) ∧
      m.m_triangleIndices.length = 3 * (2 * 2 ^ 2) ∧
      m.m_vertexPositions.length = 3 * (6 * 2 ^ 2) ∧
      (∀ x ∈ m.m_triangleIndices, x < 6 * 2 ^ 2) ∧
      (∀ v, v < 6 * 2 ^ 2 →
        ∃! k, k < 2 * 2 ^ 2 ∧ v ∈ (m.m_triangleIndices.drop (3 * k)).take 3) :=
  genSphere_indices _ _ _ 2 (by decide) (by decide)

/-- Counterexample to C3 as stated: at resolution 26755 the mesh has `6 r² > 2 ^ 32` vertices
and the index entries wrap around.  The entries written for the triangle number
`k = 1431655765 < 2 r²` are `1, 0, 4294967295` and not `3k + 2, 3k + 1, 3k`; the vertex 1 is
also referenced by the triangle number 0, so it belongs to two triangles. -/
theorem genSphere_indices_wrap :
    ∃ m : Mesh ℝ,
      genSphere ⟨Real.sin, Real.cos, Real.sqrt, Real.pi⟩ (fun x => x) (fun _ _ _ => 0) 26755
        = some m ∧
      1431655765 < 2 * 26755 ^ 2 ∧
      (m.m_triangleIndices.drop (3 * 1431655765)).take 3 = [1, 0, 4294967295] ∧
      (m.m_triangleIndices.drop (3 * 1431655765)).take 3
        ≠ [3 * 1431655765 + 2, 3 * 1431655765 + 1, 3 * 1431655765] ∧
      (m.m_triangleIndices.drop (3 * 0)).take 3 = [2, 1, 0] := by
  obtain ⟨m, hm, hchunk⟩ := genSphere_chunks
    (⟨Real.sin, Real.cos, Real.sqrt, Real.pi⟩ : FloatOps ℝ) (fun x => x) (fun _ _ _ => 0) 26755
  have hk : 1431655765 < 2 * 26755 ^ 2 := by norm_num
  have hk1 : 1431655765 < 2 * (26755 * 26755) := by norm_num
  have hk0 : 0 < 2 * (26755 * 26755) := by norm_num
  have e1 : triangleIndices 1431655765 = [1, 0, 4294967295] := by decide
  have e0 : triangleIndices 0 = [2, 1, 0] := by decide
  refine ⟨m, hm, hk, ?_, ?_, ?_⟩
  · rw [hchunk _ hk1, e1]
  · rw [hchunk _ hk1, e1]
    decide
  · rw [hchunk _ hk0, e0]

section VertexLemmas

variable {α : Type} [LinearOrderedField α]

/-- A concatenation over `k * n` items, grouped in `n` blocks of `k`. -/
theorem flatMap_range_mul {β : Type} (g : Nat → List β) (k : Nat) :
    ∀ n : Nat, (List.range (k * n)).flatMap g
      = (List.range n).flatMap (fun q => (List.range k).flatMap (fun c => g (k * q + c))) := by
  intro n
  induction n with
  | zero => simp
  | succ n ih =>
    rw [Nat.mul_succ, List.range_add, List.flatMap_append, ih, List.range_succ,
      List.flatMap_append, List.flatMap_singleton, List.flatMap_map]

theorem range6 : List.range 6 = [0, 1, 2, 3, 4, 5] := rfl

theorem vertexCorner_quad (r q c : Nat) (hc : c < 6) :
    vertexCorner r (6 * q + c) = (quadCorners (q / r) (q % r)).getD c (0, 0) := by
  have h1 : (6 * q + c) / 6 = q := by omega
  have h2 : (6 * q + c) % 6 = c := by omega
  simp only [vertexCorner, h1, h2]

/-- The coordinates of a quad are those of its six vertices, each computed from its grid
corner. -/
theorem quadPositions_eq_vertices (ops : FloatOps α) (r q : Nat) :
    quadPositions ops r ((q / r : Nat) : α) ((q % r : Nat) : α)
      = (List.range 6).flatMap (fun c =>
          gridPoint ops r (((vertexCorner r (6 * q + c)).1 : Nat) : α)
            (((vertexCorner r (6 * q + c)).2 : Nat) : α)) := by
  have e0 := vertexCorner_quad r q 0 (by decide)
  have e1 := vertexCorner_quad r q 1 (by decide)
  have e2 := vertexCorner_quad r q 2 (by decide)
  have e3 := vertexCorner_quad r q 3 (by decide)
  have e4 := vertexCorner_quad r q 4 (by decide)
  have e5 := vertexCorner_quad r q 5 (by decide)
  rw [Nat.add_zero] at e0
  simp [range6, e0, e1, e2, e3, e4, e5, quadCorners, quadPositions, Nat.cast_add, Nat.cast_one]

theorem quadTexCoords_eq_vertices (r q : Nat) :
    (quadTexCoords r ((q / r : Nat) : α) ((q % r : Nat) : α) : List α)
      = (List.range 6).flatMap (fun c =>
          gridTexCoord r (((vertexCorner r (6 * q + c)).1 : Nat) : α)
            (((vertexCorner r (6 * q + c)).2 : Nat) : α)) := by
  have e0 := vertexCorner_quad r q 0 (by decide)
  have e1 := vertexCorner_quad r q 1 (by decide)
  have e2 := vertexCorner_quad r q 2 (by decide)
  have e3 := vertexCorner_quad r q 3 (by decide)
  have e4 := vertexCorner_quad r q 4 (by decide)
  have e5 := vertexCorner_quad r q 5 (by decide)
  rw [Nat.add_zero] at e0
  simp [range6, e0, e1, e2, e3, e4, e5, quadCorners, quadTexCoords, Nat.cast_add, Nat.cast_one]

/-- The coordinates of the mesh, vertex by vertex. -/
theorem spherePositions_eq_vertices (ops : FloatOps α) (r : Nat) :
    spherePositions ops r
      = (List.range (6 * (r * r))).flatMap (fun n =>
          gridPoint ops r (((vertexCorner r n).1 : Nat) : α) (((vertexCorner r n).2 : Nat) : α)) := by
  rw [flatMap_range_mul, spherePositions]
  apply List.flatMap_congr
  intro q _
  exact quadPositions_eq_vertices ops r q

/-- The texture coordinates of the mesh, vertex by vertex. -/
theorem sphereTexCoords_eq_vertices (r : Nat) :
    (sphereTexCoords r : List α)
      = (List.range (6 * (r * r))).flatMap (fun n =>
          gridTexCoord r (((vertexCorner r n).1 : Nat) : α) (((vertexCorner r n).2 : Nat) : α)) := by
  rw [flatMap_range_mul, sphereTexCoords]
  apply List.flatMap_congr
  intro q _
  exact quadTexCoords_eq_vertices r q

theorem gridPoint_length (ops : FloatOps α) (r : Nat) (theta phi : α) :
    (gridPoint ops r theta phi).length = 3 := by
  simp [gridPoint, convertSpherical]

/-- The three coordinates of the vertex number `n`. -/
theorem spherePositions_vertex (ops : FloatOps α) (r n : Nat) (hn : n < 6 * (r * r)) :
    ((spherePositions ops r).drop (3 * n)).take 3
      = gridPoint ops r (((vertexCorner r n).1 : Nat) : α) (((vertexCorner r n).2 : Nat) : α) := by
  rw [spherePositions_eq_vertices]
  exact drop_take_flatMap_range _ 3 (fun _ => gridPoint_length ops r _ _) _ n hn

/-- The two texture coordinates of the vertex number `n`. -/
theorem sphereTexCoords_vertex (r n : Nat) (hn : n < 6 * (r * r)) :
    ((sphereTexCoords r : List α).drop (2 * n)).take 2
      = gridTexCoord r (((vertexCorner r n).1 : Nat) : α) (((vertexCorner r n).2 : Nat) : α) := by
  rw [sphereTexCoords_eq_vertices]
  exact drop_take_flatMap_range _ 2 (fun _ => by simp [gridTexCoord]) _ n hn

/-- The eighteen coordinates of the quad `(i, j)`. -/
theorem spherePositions_quad (ops : FloatOps α) (r i j : Nat) (hi : i < r) (hj : j < r) :
    ((spherePositions ops r).drop (18 * (i * r + j))).take 18
      = quadPositions ops r (i : α) (j : α) := by
  have hq : i * r + j < r * r := by
    calc i * r + j < i * r + r := by omega
      _ = (i + 1) * r := by ring
      _ ≤ r * r := Nat.mul_le_mul_right r hi
  have hr : 0 < r := by omega
  have h1 : (i * r + j) / r = i := by
    rw [Nat.mul_comm, Nat.mul_add_div hr, Nat.div_eq_of_lt hj, Nat.add_zero]
  have h2 : (i * r + j) % r = j := by
    rw [Nat.mul_comm, Nat.mul_add_mod, Nat.mod_eq_of_lt hj]
  have h := drop_take_flatMap_range
    (fun q => quadPositions ops r ((q / r : Nat) : α) ((q % r : Nat) : α)) 18
    (fun _ => quadPositions_length ops r _ _) _ (i * r + j) hq
  simp only [h1, h2] at h
  exact h

/-- Every grid corner of a vertex of `genSphere(r)` lies in the grid `0..r`. -/
theorem vertexCorner_le (r n : Nat) (hr : 0 < r) (hn : n < 6 * (r * r)) :
    (vertexCorner r n).1 ≤ r ∧ (vertexCorner r n).2 ≤ r := by
  have hq : n / 6 < r * r := by omega
  have hi : n / 6 / r < r := Nat.div_lt_of_lt_mul hq
  have hj : n / 6 % r < r := Nat.mod_lt _ hr
  have hc : n % 6 < 6 := Nat.mod_lt _ (by decide)
  simp only [vertexCorner, quadCorners]
  generalize n / 6 / r = i at hi
  generalize n / 6 % r = j at hj
  generalize n % 6 = c at hc
  rcases c with _ | _ | _ | _ | _ | _ | c
  · exact ⟨by simpa using hi.le, by simpa using hj.le⟩
  · exact ⟨by simpa using hi, by simpa using hj.le⟩
  · exact ⟨by simpa using hi.le, by simpa using hj⟩
  · exact ⟨by simpa using hi, by simpa using hj.le⟩
  · exact ⟨by simpa using hi, by simpa using hj⟩
  · exact ⟨by simpa using hi.le, by simpa using hj⟩
  · omega

end VertexLemmas

section UnitSphere

/-- Over the reals every pushed grid point is the spherical image of radius 1 with polar
angle `a π / r` and azimuth `b 2 π / r`, and lies on the unit sphere. -/
theorem gridPoint_real (r : Nat) (a b : ℝ) :
    gridPoint ⟨Real.sin, Real.cos, Real.sqrt, Real.pi⟩ r a b
      = sphericalImage ⟨Real.sin, Real.cos, Real.sqrt, Real.pi⟩ 1
          (a * Real.pi / r) (b * 2 * Real.pi / r) ∧
    euclidNorm ⟨Real.sin, Real.cos, Real.sqrt, Real.pi⟩
      (gridPoint ⟨Real.sin, Real.cos, Real.sqrt, Real.pi⟩ r a b) = 1 := by
  constructor
  · have h1 : a / (r : ℝ) * Real.pi = a * Real.pi / r := by ring
    have h2 : b / (r : ℝ) * 2 * Real.pi = b * 2 * Real.pi / r := by ring
    simp [gridPoint, convertSpherical, sphericalImage, h1, h2]
  · simp only [gridPoint, convertSpherical, euclidNorm, dot, abs_one, one_mul, List.nil_append,
      List.singleton_append, List.cons_append, List.zipWith_cons_cons, List.zipWith_nil_right,
      List.sum_cons, List.sum_nil, add_zero]
    have h1 := Real.sin_sq_add_cos_sq (a / (r : ℝ) * Real.pi)
    have h2 := Real.sin_sq_add_cos_sq (b / (r : ℝ) * 2 * Real.pi)
    have : Real.sin (a / ↑r * Real.pi) * Real.cos (b / ↑r * 2 * Real.pi) *
          (Real.sin (a / ↑r * Real.pi) * Real.cos (b / ↑r * 2 * Real.pi)) +
        (Real.sin (a / ↑r * Real.pi) * Real.sin (b / ↑r * 2 * Real.pi) *
          (Real.sin (a / ↑r * Real.pi) * Real.sin (b / ↑r * 2 * Real.pi)) +
        Real.cos (a / ↑r * Real.pi) * Real.cos (a / ↑r * Real.pi)) = 1 := by
      linear_combination (Real.sin (a / ↑r * Real.pi) ^ 2) * h2 + h1
    rw [this, Real.sqrt_one]

end UnitSphere

/-- C4: over the reals, for every resolution `r > 0` and every quad `(i, j)` with
`i, j < r`, the eighteen coordinates stored at the quad number `i r + j` are the spherical
images, with radius 1, polar angle `a π / r` and azimuth `b 2 π / r`, of the corners
`(i, j)`, `(i+1, j)`, `(i, j+1)`, then `(i+1, j)`, `(i+1, j+1)`, `(i, j+1)`; and each of the
`6 r²` vertex positions has Euclidean norm 1. -/
theorem genSphere_positions (fl : ℝ → ℝ) (distr : RandomSource ℝ) (r : Nat) (hr : 0 < r) :
    ∃ m : Mesh ℝ, genSphere ⟨Real.sin, Real.cos, Real.sqrt, Real.pi⟩ fl distr r = some m ∧
      (∀ i j : Nat, i < r → j < r →
        (m.m_vertexPositions.drop (18 * (i * r + j))).take 18 =
          sphericalImage ⟨Real.sin, Real.cos, Real.sqrt, Real.pi⟩ 1
            (i * Real.pi / r) (j * 2 * Real.pi / r) ++
          sphericalImage ⟨Real.sin, Real.cos, Real.sqrt, Real.pi⟩ 1
            ((i + 1) * Real.pi / r) (j * 2 * Real.pi / r) ++
          sphericalImage ⟨Real.sin, Real.cos, Real.sqrt, Real.pi⟩ 1
            (i * Real.pi / r) ((j + 1) * 2 * Real.pi / r) ++
          sphericalImage ⟨Real.sin, Real.cos, Real.sqrt, Real.pi⟩ 1
            ((i + 1) * Real.pi / r) (j * 2 * Real.pi / r) ++
          sphericalImage ⟨Real.sin, Real.cos, Real.sqrt, Real.pi⟩ 1
            ((i + 1) * Real.pi / r) ((j + 1) * 2 * Real.pi / r) ++
          sphericalImage ⟨Real.sin, Real.cos, Real.sqrt, Real.pi⟩ 1
            (i * Real.pi / r) ((j + 1) * 2 * Real.pi / r)) ∧
      m.m_vertexPositions.length = 3 * (6 * r ^ 2) ∧
      (∀ n, n < 6 * r ^ 2 →
        euclidNorm ⟨Real.sin, Real.cos, Real.sqrt, Real.pi⟩
          ((m.m_vertexPositions.drop (3 * n)).take 3) = 1) := by
  have hr' := hr
  refine ⟨_, genSphere_eq _ fl distr r, ?_, ?_, ?_⟩
  · intro i j hi hj
    show ((spherePositions _ r).drop (18 * (i * r + j))).take 18 = _
    rw [spherePositions_quad _ r i j hi hj, quadPositions]
    simp only [(gridPoint_real r _ _).1]
  · show (spherePositions _ r).length = _
    rw [spherePositions_length]
    ring
  · intro n hn
    show euclidNorm _ (((spherePositions _ r).drop (3 * n)).take 3) = 1
    rw [spherePositions_vertex _ r n (by rw [pow_two] at hn; exact hn)]
    exact (gridPoint_real r _ _).2

/-- Witness for C4: resolution 1. -/
theorem genSphere_positions_witness :
    ∃ m : Mesh ℝ,
      genSphere ⟨Real.sin, Real.cos, Real.sqrt, Real.pi⟩ (fun x => x) (fun _ _ _ => 0) 1 = some m ∧
      (∀ i j : Nat, i < 1 → j < 1 →
        (m.m_vertexPositions.drop (18 * (i * 1 + j))).take 18 =
          sphericalImage ⟨Real.sin, Real.cos, Real.sqrt, Real.pi⟩ 1
            (i * Real.pi / (1 : ℕ)) (j * 2 * Real.pi / (1 : ℕ)) ++
          sphericalImage ⟨Real.sin, Real.cos, Real.sqrt, Real.pi⟩ 1
            ((i + 1) * Real.pi / (1 : ℕ)) (j * 2 * Real.pi / (1 : ℕ)) ++
          sphericalImage ⟨Real.sin, Real.cos, Real.sqrt, Real.pi⟩ 1
            (i * Real.pi / (1 : ℕ)) ((j + 1) * 2 * Real.pi / (1 : ℕ)) ++
          sphericalImage ⟨Real.sin, Real.cos, Real.sqrt, Real.pi⟩ 1
            ((i + 1) * Real.pi / (1 : ℕ)) (j * 2 * Real.pi / (1 : ℕ)) ++
          sphericalImage ⟨Real.sin, Real.cos, Real.sqrt, Real.pi⟩ 1
            ((i + 1) * Real.pi / (1 : ℕ)) ((j + 1) * 2 * Real.pi / (1 : ℕ)) ++
          sphericalImage ⟨Real.sin, Real.cos, Real.sqrt, Real.pi⟩ 1
            (i * Real.pi / (1 : ℕ)) ((j + 1) * 2 * Real.pi / (1 : ℕ))) ∧
      m.m_vertexPositions.length = 3 * (6 * 1 ^ 2) ∧
      (∀ n, n < 6 * 1 ^ 2 →
        euclidNorm ⟨Real.sin, Real.cos, Real.sqrt, Real.pi⟩
          ((m.m_vertexPositions.drop (3 * n)).take 3) = 1) :=
  genSphere_positions (fun x => x) (fun _ _ _ => 0) 1 (by decide)

/-- C5: for every resolution `r > 0` and every vertex `n < 6 r²` of `genSphere(r)`, with
`(a, b)` the grid corner of the vertex (so `a, b ≤ r`, and the position of the vertex is the
point pushed for `(a, b)`), the `n`-th texture-coordinate pair is `(b / r, 1 - a / r)`; every
texture coordinate of the mesh lies in `[0, 1]`. -/
theorem genSphere_texCoords {α : Type} [LinearOrderedField α] (ops : FloatOps α)
    (fl : α → α) (distr : RandomSource α) (r : Nat) (hr : 0 < r) :
    ∃ m : Mesh α, genSphere ops fl distr r = some m ∧
      m.m_vertexTexCoords.length = 2 * (6 * r ^ 2) ∧
      (∀ n, n < 6 * r ^ 2 →
        (vertexCorner r n).1 ≤ r ∧ (vertexCorner r n).2 ≤ r ∧
        (m.m_vertexPositions.drop (3 * n)).take 3 =
          convertSpherical ops 1 (((vertexCorner r n).1 : α) / r * ops.pi)
            (((vertexCorner r n).2 : α) / r * 2 * ops.pi) [] ∧
        (m.m_vertexTexCoords.drop (2 * n)).take 2 =
          [((vertexCorner r n).2 : α) / r, 1 - ((vertexCorner r n).1 : α) / r]) ∧
      (∀ x ∈ m.m_vertexTexCoords, 0 ≤ x ∧ x ≤ 1) := by
  have hr0 : (0 : α) < r := Nat.cast_pos.mpr hr
  have hunit : ∀ c : Nat, c ≤ r → (0 : α) ≤ (c : α) / r ∧ (c : α) / r ≤ 1 := by
    intro c hc
    have hc' : (c : α) ≤ r := Nat.cast_le.mpr hc
    exact ⟨div_nonneg (Nat.cast_nonneg c) hr0.le, (div_le_one hr0).mpr hc'⟩
  refine ⟨_, genSphere_eq ops fl distr r, ?_, ?_, ?_⟩
  · show (sphereTexCoords r : List α).length = _
    rw [sphereTexCoords_length]
    ring
  · intro n hn
    rw [pow_two] at hn
    have hle := vertexCorner_le r n hr hn
    refine ⟨hle.1, hle.2, ?_, ?_⟩
    · show ((spherePositions ops r).drop (3 * n)).take 3 = _
      rw [spherePositions_vertex ops r n hn]
      rfl
    · show ((sphereTexCoords r : List α).drop (2 * n)).take 2 = _
      rw [sphereTexCoords_vertex r n hn]
      rfl
  · intro x hx
    change x ∈ (sphereTexCoords r : List α) at hx
    rw [sphereTexCoords_eq_vertices] at hx
    obtain ⟨n, hn, hxn⟩ := List.mem_flatMap.mp hx
    have hle := vertexCorner_le r n hr (List.mem_range.mp hn)
    have h1 := hunit _ hle.1
    have h2 := hunit _ hle.2
    simp only [gridTexCoord, List.mem_cons, List.mem_singleton, List.mem_nil_iff,
      or_false] at hxn
    rcases hxn with rfl | rfl
    · exact h2
    · exact ⟨by linarith [h1.2], by linarith [h1.1]⟩

/-- Witness for C5: resolution 2, on rational scalars. -/
theorem genSphere_texCoords_witness :
    ∃ m : Mesh ℚ,
      genSphere ⟨fun x => x, fun x => x, fun x => x, 3⟩ binary32 (fun _ _ _ => 0) 2 = some m ∧
      m.m_vertexTexCoords.length = 2 * (6 * 2 ^ 2) ∧
      (∀ n, n < 6 * 2 ^ 2 →
        (vertexCorner 2 n).1 ≤ 2 ∧ (vertexCorner 2 n).2 ≤ 2 ∧
        (m.m_vertexPositions.drop (3 * n)).take 3 =
          convertSpherical ⟨fun x => x, fun x => x, fun x => x, 3⟩ 1
            (((vertexCorner 2 n).1 : ℚ) / (2 : ℕ) * 3)
            (((vertexCorner 2 n).2 : ℚ) / (2 : ℕ) * 2 * 3) [] ∧
        (m.m_vertexTexCoords.drop (2 * n)).take 2 =
          [((vertexCorner 2 n).2 : ℚ) / (2 : ℕ), 1 - ((vertexCorner 2 n).1 : ℚ) / (2 : ℕ)]) ∧
      (∀ x ∈ m.m_vertexTexCoords, 0 ≤ x ∧ x ≤ 1) :=
  genSphere_texCoords _ _ _ 2 (by decide)

section PoleLemmas

theorem vertexCorner_zero (r : Nat) : vertexCorner r 0 = (0, 0) := by
  simp [vertexCorner, quadCorners]

theorem vertexCorner_one (r : Nat) : vertexCorner r 1 = (1, 0) := by
  simp [vertexCorner, quadCorners]

theorem vertexCorner_two (r : Nat) : vertexCorner r 2 = (0, 1) := by
  simp [vertexCorner, quadCorners]

/-- Over the reals, every grid point of the row `theta = 0` is the north pole. -/
theorem gridPoint_pole (r : Nat) (phi : ℝ) :
    gridPoint ⟨Real.sin, Real.cos, Real.sqrt, Real.pi⟩ r 0 phi = [0, 0, 1] := by
  simp [gridPoint, convertSpherical]

/-- The triangle-normal values of the first triangle of `genSphere(r)`. -/
theorem sphereTriangleNormals_first (r : Nat) (hr : 0 < r) :
    ((sphereTriangleNormals ⟨Real.sin, Real.cos, Real.sqrt, Real.pi⟩ r).drop (3 * 0)).take 3
      = [0, 0, 0] := by
  obtain ⟨n, hn⟩ : ∃ n, r * r = n + 1 := ⟨r * r - 1, by
    have : 0 < r * r := Nat.mul_pos hr hr
    omega⟩
  have h0 : (0 : Nat) / r = 0 := Nat.zero_div r
  have h1 : (0 : Nat) % r = 0 := Nat.zero_mod r
  simp only [sphereTriangleNormals, hn, List.range_succ_eq_map, List.flatMap_cons, h0, h1,
    Nat.cast_zero, quadNormals, gridPoint_pole, Nat.mul_zero, List.drop_zero]
  simp [storedNormal, gridPoint, convertSpherical, normal_three]

end PoleLemmas

/-- C2 (the claim fails on the code): over the reals and for every resolution `r > 0`, the
first corner triple `genSphere(r)` passes to `addTriangle` (the vertices 0, 1, 2) is
degenerate.  The corners `a` and `c` are both the north pole `(0, 0, 1)`, so the three points
are collinear, the cross product of the edge vectors is `(0, 0, 0)` and `normal` divides by
the norm 0; the triangle normal stored for this triangle does not have magnitude 1 (in this
embedding it is the zero vector, the value of `0 / 0` in a field). -/
theorem genSphere_pole_triangle_degenerate (fl : ℝ → ℝ) (distr : RandomSource ℝ) (r : Nat)
    (hr : 0 < r) :
    ∃ (m : Mesh ℝ) (b : List ℝ),
      genSphere ⟨Real.sin, Real.cos, Real.sqrt, Real.pi⟩ fl distr r = some m ∧
      (m.m_vertexPositions.drop (3 * 0)).take 3 = [0, 0, 1] ∧
      (m.m_vertexPositions.drop (3 * 1)).take 3 = b ∧
      (m.m_vertexPositions.drop (3 * 2)).take 3 = [0, 0, 1] ∧
      Collinear3 [0, 0, 1] b [0, 0, 1] ∧
      crossProduct (vsub b [0, 0, 1]) (vsub [0, 0, 1] [0, 0, 1]) [] = some [0, 0, 0] ∧
      euclidNorm ⟨Real.sin, Real.cos, Real.sqrt, Real.pi⟩ [0, 0, 0] = 0 ∧
      euclidNorm ⟨Real.sin, Real.cos, Real.sqrt, Real.pi⟩
        ((m.m_triangleNormals.drop (3 * 0)).take 3) ≠ 1 := by
  have hpos : 0 < 6 * (r * r) := by
    have : 0 < r * r := Nat.mul_pos hr hr
    omega
  have h0 := spherePositions_vertex (⟨Real.sin, Real.cos, Real.sqrt, Real.pi⟩ : FloatOps ℝ) r 0
    (by omega)
  have h1 := spherePositions_vertex (⟨Real.sin, Real.cos, Real.sqrt, Real.pi⟩ : FloatOps ℝ) r 1
    (by omega)
  have h2 := spherePositions_vertex (⟨Real.sin, Real.cos, Real.sqrt, Real.pi⟩ : FloatOps ℝ) r 2
    (by omega)
  rw [vertexCorner_zero, Nat.cast_zero, gridPoint_pole] at h0
  rw [vertexCorner_two, Nat.cast_zero, gridPoint_pole] at h2
  rw [vertexCorner_one] at h1
  have hcross : crossProduct
      (vsub (gridPoint ⟨Real.sin, Real.cos, Real.sqrt, Real.pi⟩ r ((1 : Nat) : ℝ) ((0 : Nat) : ℝ))
        [0, 0, 1])
      (vsub [0, 0, 1] [0, 0, 1]) [] = some [(0 : ℝ), 0, 0] := by
    simp [gridPoint, convertSpherical, vsub, crossProduct]
  refine ⟨_, _, genSphere_eq _ fl distr r, h0, h1, h2, ?_, hcross, ?_, ?_⟩
  · have hb : gridPoint ⟨Real.sin, Real.cos, Real.sqrt, Real.pi⟩ r ((1 : Nat) : ℝ) ((0 : Nat) : ℝ)
        = [Real.sin (1 / (r : ℝ) * Real.pi), 0, Real.cos (1 / (r : ℝ) * Real.pi)] := by
      simp [gridPoint, convertSpherical]
    have hc := hcross
    rw [hb] at hc ⊢
    rw [collinear3_iff_cross]
    simpa [vsub] using hc
  · simp [euclidNorm, dot]
  · show euclidNorm _ (((sphereTriangleNormals _ r).drop (3 * 0)).take 3) ≠ 1
    rw [sphereTriangleNormals_first r hr]
    simp [euclidNorm, dot]

/-- Witness for C2: resolution 1. -/
theorem genSphere_pole_triangle_degenerate_witness :
    ∃ (m : Mesh ℝ) (b : List ℝ),
      genSphere ⟨Real.sin, Real.cos, Real.sqrt, Real.pi⟩ (fun x => x) (fun _ _ _ => 0) 1 = some m ∧
      (m.m_vertexPositions.drop (3 * 0)).take 3 = [0, 0, 1] ∧
      (m.m_vertexPositions.drop (3 * 1)).take 3 = b ∧
      (m.m_vertexPositions.drop (3 * 2)).take 3 = [0, 0, 1] ∧
      Collinear3 [0, 0, 1] b [0, 0, 1] ∧
      crossProduct (vsub b [0, 0, 1]) (vsub [0, 0, 1] [0, 0, 1]) [] = some [0, 0, 0] ∧
      euclidNorm ⟨Real.sin, Real.cos, Real.sqrt, Real.pi⟩ [0, 0, 0] = 0 ∧
      euclidNorm ⟨Real.sin, Real.cos, Real.sqrt, Real.pi⟩
        ((m.m_triangleNormals.drop (3 * 0)).take 3) ≠ 1 :=
  genSphere_pole_triangle_degenerate (fun x => x) (fun _ _ _ => 0) 1 (by decide)

/-! ## Theorems: the moon transform -/

section MoonLemmas

/-- Over the reals, `glm::rotate` about the axis `(0, 0, 1)` multiplies by the rotation about
the Z axis. -/
theorem rotate_z_eq (m : Mat4 ℝ) (angle : ℝ) :
    glm.rotate ⟨Real.sin, Real.cos, Real.sqrt, Real.pi⟩ m angle ⟨0, 0, 1⟩
      = matMul m (rotationZ ⟨Real.sin, Real.cos, Real.sqrt, Real.pi⟩ angle) := by
  rcases m with ⟨⟨x0, y0, z0, w0⟩, ⟨x1, y1, z1, w1⟩, ⟨x2, y2, z2, w2⟩, ⟨x3, y3, z3, w3⟩⟩
  simp [glm.rotate, glm.normalize, glm.add4, glm.smul4, matMul, mulVec, rotationZ]

/-- The builder `glm::translate` multiplies by a translation matrix. -/
theorem translate_eq {α : Type} [LinearOrderedField α] (m : Mat4 α) (x y z : α) :
    glm.translate m ⟨x, y, z⟩ = matMul m (translationMat x y z) := by
  rcases m with ⟨⟨x0, y0, z0, w0⟩, ⟨x1, y1, z1, w1⟩, ⟨x2, y2, z2, w2⟩, ⟨x3, y3, z3, w3⟩⟩
  simp [glm.translate, glm.add4, glm.smul4, matMul, mulVec, translationMat]

/-- The builder `glm::scale` with equal factors multiplies by a uniform scaling. -/
theorem scale_eq {α : Type} [LinearOrderedField α] (m : Mat4 α) (s : α) :
    glm.scale m ⟨s, s, s⟩ = matMul m (scaleMat s) := by
  rcases m with ⟨⟨x0, y0, z0, w0⟩, ⟨x1, y1, z1, w1⟩, ⟨x2, y2, z2, w2⟩, ⟨x3, y3, z3, w3⟩⟩
  simp [glm.scale, glm.add4, glm.smul4, matMul, mulVec, scaleMat]

theorem translate_identity {α : Type} [LinearOrderedField α] (x y z : α) :
    glm.translate glm.mat4_1 ⟨x, y, z⟩ = translationMat x y z := by
  simp [glm.translate, glm.mat4_1, glm.add4, glm.smul4, translationMat]

end MoonLemmas

/-- C11: over the reals, for every time `t` and angular velocity `w`, with `v = t w`, the moon
transform computed by `update` (stored in `g_moon` and in the moon mesh) is the product
`translate(10 cos v, 10 sin v, 0) * rotateZ(4 v) * translate(kRadOrbitMoon, 0, 0) *
scale(kSizeMoon)`, in which neither the tilt, nor the spin, nor the scale of the earth occurs.
Its translation column is the centre of the earth plus `(2 cos 4v, 2 sin 4v, 0)`, at distance
`kRadOrbitMoon = 2` from the centre of the earth, and its linear part is `0.25` times the
rotation by `4 v` about the Z axis (an orthogonal matrix of determinant 1). -/
theorem update_moon (g_camera : Camera ℝ) (earth moon : Mesh ℝ) (t w : ℝ) :
    (update ⟨Real.sin, Real.cos, Real.sqrt, Real.pi⟩ g_camera t earth moon w).moon.transformation
      = (update ⟨Real.sin, Real.cos, Real.sqrt, Real.pi⟩ g_camera t earth moon w).g_moon ∧
    (update ⟨Real.sin, Real.cos, Real.sqrt, Real.pi⟩ g_camera t earth moon w).g_moon
      = matMul (matMul (matMul
          (translationMat (10 * Real.cos (t * w)) (10 * Real.sin (t * w)) 0)
          (rotationZ ⟨Real.sin, Real.cos, Real.sqrt, Real.pi⟩ (4 * (t * w))))
          (translationMat kRadOrbitMoon 0 0))
          (scaleMat kSizeMoon) ∧
    (update ⟨Real.sin, Real.cos, Real.sqrt, Real.pi⟩ g_camera t earth moon w).g_moon.c3
      = ⟨(update ⟨Real.sin, Real.cos, Real.sqrt, Real.pi⟩ g_camera t earth moon w).g_earth.c3.x
            + 2 * Real.cos (4 * (t * w)),
         (update ⟨Real.sin, Real.cos, Real.sqrt, Real.pi⟩ g_camera t earth moon w).g_earth.c3.y
            + 2 * Real.sin (4 * (t * w)),
         (update ⟨Real.sin, Real.cos, Real.sqrt, Real.pi⟩ g_camera t earth moon w).g_earth.c3.z
            + 0,
         1⟩ ∧
    Real.sqrt
      (((update ⟨Real.sin, Real.cos, Real.sqrt, Real.pi⟩ g_camera t earth moon w).g_moon.c3.x
          - (update ⟨Real.sin, Real.cos, Real.sqrt, Real.pi⟩ g_camera t earth moon w).g_earth.c3.x)
          ^ 2
        + ((update ⟨Real.sin, Real.cos, Real.sqrt, Real.pi⟩ g_camera t earth moon w).g_moon.c3.y
          - (update ⟨Real.sin, Real.cos, Real.sqrt, Real.pi⟩ g_camera t earth moon w).g_earth.c3.y)
          ^ 2
        + ((update ⟨Real.sin, Real.cos, Real.sqrt, Real.pi⟩ g_camera t earth moon w).g_moon.c3.z
          - (update ⟨Real.sin, Real.cos, Real.sqrt, Real.pi⟩ g_camera t earth moon w).g_earth.c3.z)
          ^ 2)
      = kRadOrbitMoon ∧
    (kRadOrbitMoon : ℝ) = 2 ∧
    (update ⟨Real.sin, Real.cos, Real.sqrt, Real.pi⟩ g_camera t earth moon w).g_moon.c0
      = glm.smul4 (rotationZ ⟨Real.sin, Real.cos, Real.sqrt, Real.pi⟩ (4 * (t * w))).c0 (1 / 4) ∧
    (update ⟨Real.sin, Real.cos, Real.sqrt, Real.pi⟩ g_camera t earth moon w).g_moon.c1
      = glm.smul4 (rotationZ ⟨Real.sin, Real.cos, Real.sqrt, Real.pi⟩ (4 * (t * w))).c1 (1 / 4) ∧
    (update ⟨Real.sin, Real.cos, Real.sqrt, Real.pi⟩ g_camera t earth moon w).g_moon.c2
      = glm.smul4 (rotationZ ⟨Real.sin, Real.cos, Real.sqrt, Real.pi⟩ (4 * (t * w))).c2 (1 / 4) ∧
    matMul (transpose (rotationZ ⟨Real.sin, Real.cos, Real.sqrt, Real.pi⟩ (4 * (t * w))))
        (rotationZ ⟨Real.sin, Real.cos, Real.sqrt, Real.pi⟩ (4 * (t * w))) = glm.mat4_1 ∧
    det3 (rotationZ ⟨Real.sin, Real.cos, Real.sqrt, Real.pi⟩ (4 * (t * w))) = 1 := by
  have hmoon : (update ⟨Real.sin, Real.cos, Real.sqrt, Real.pi⟩ g_camera t earth moon w).g_moon
      = ⟨⟨Real.cos (4 * (t * w)) * (1 / 4), Real.sin (4 * (t * w)) * (1 / 4), 0, 0⟩,
         ⟨-Real.sin (4 * (t * w)) * (1 / 4), Real.cos (4 * (t * w)) * (1 / 4), 0, 0⟩,
         ⟨0, 0, 1 / 4, 0⟩,
         ⟨10 * Real.cos (t * w) + 2 * Real.cos (4 * (t * w)),
          10 * Real.sin (t * w) + 2 * Real.sin (4 * (t * w)), 0, 1⟩⟩ := by
    simp only [update, rotate_z_eq, translate_eq, scale_eq, matMul, mulVec, translationMat,
      rotationZ, scaleMat, glm.add4, glm.smul4, glm.mat4_1, kRadOrbitEarth, kRadOrbitMoon,
      kSizeMoon]
    congr 1 <;> congr 1 <;> ring
  have hearth := update_g_earth_c3 (⟨Real.sin, Real.cos, Real.sqrt, Real.pi⟩ : FloatOps ℝ)
    g_camera t w earth moon
  have hcs := Real.sin_sq_add_cos_sq (4 * (t * w))
  refine ⟨rfl, ?_, ?_, ?_, ?_, ?_, ?_, ?_, ?_, ?_⟩
  · rw [hmoon]
    simp only [matMul, mulVec, translationMat, rotationZ, scaleMat, glm.add4, glm.smul4,
      kRadOrbitMoon, kSizeMoon]
    congr 1 <;> congr 1 <;> ring
  · rw [hmoon, hearth]
    simp [kRadOrbitEarth]
  · rw [hmoon, hearth]
    simp only [kRadOrbitEarth, kRadOrbitMoon]
    have : (10 * Real.cos (t * w) + 2 * Real.cos (4 * (t * w)) - 10 * Real.cos (t * w)) ^ 2
        + (10 * Real.sin (t * w) + 2 * Real.sin (4 * (t * w)) - 10 * Real.sin (t * w)) ^ 2
        + ((0 : ℝ) - 0) ^ 2 = 2 ^ 2 := by
      linear_combination 4 * hcs
    rw [this, Real.sqrt_sq (by norm_num)]
  · rfl
  · rw [hmoon]; simp [rotationZ, glm.smul4]
  · rw [hmoon]; simp [rotationZ, glm.smul4]
  · rw [hmoon]; simp [rotationZ, glm.smul4]
  · simp only [matMul, mulVec, transpose, rotationZ, glm.add4, glm.smul4, glm.mat4_1,
      Mat4.mk.injEq, Vec4.mk.injEq]
    refine ⟨⟨?_, ?_, ?_, ?_⟩, ⟨?_, ?_, ?_, ?_⟩, ⟨?_, ?_, ?_, ?_⟩, ⟨?_, ?_, ?_, ?_⟩⟩ <;>
      first
        | linear_combination hcs
        | ring
  · simp only [det3, rotationZ]
    linear_combination hcs

/-! ## Theorems: winding and stored normal -/

section WindingLemmas

variable {α : Type} [LinearOrderedField α]

/-- The method `addTriangle` on a vector of at least nine coordinates: only the first nine
are read. -/
theorem addTriangle_cons (ops : FloatOps α) (m : Mesh α) (v0 v1 v2 v3 v4 v5 v6 v7 v8 : α)
    (rest : List α) :
    m.addTriangle ops (v0 :: v1 :: v2 :: v3 :: v4 :: v5 :: v6 :: v7 :: v8 :: rest) =
      some { m with
        m_vertexPositions := m.m_vertexPositions ++ [v0, v1, v2, v3, v4, v5, v6, v7, v8]
        m_triangleIndices := m.m_triangleIndices ++
          [(m.m_vertexPositions.length / 3 + 2) % 2 ^ 32,
           (m.m_vertexPositions.length / 3 + 1) % 2 ^ 32,
           (m.m_vertexPositions.length / 3) % 2 ^ 32]
        m_triangleNormals := m.m_triangleNormals ++
          storedNormal ops [v0, v1, v2] [v3, v4, v5] [v6, v7, v8] } := by
  have hlen : 9 ≤ (v0 :: v1 :: v2 :: v3 :: v4 :: v5 :: v6 :: v7 :: v8 :: rest).length := by
    simp
  simp only [Mesh.addTriangle, hlen, if_true, List.getD_cons_zero, List.getD_cons_succ,
      normal_three, range9, range3, storedNormal,
      Option.bind_eq_bind, Option.some_bind, List.foldl_cons, List.foldl_nil,
      List.append_assoc, List.singleton_append, List.cons_append, List.nil_append,
      Nat.add_sub_cancel, Nat.add_zero, Nat.sub_zero, Option.getD_some, List.map_cons,
      List.map_nil]
  rfl

/-- A list of at least nine entries, taken apart. -/
theorem exists_nine_of_le_length {β : Type} (l : List β) (h : 9 ≤ l.length) :
    ∃ v0 v1 v2 v3 v4 v5 v6 v7 v8 rest,
      l = v0 :: v1 :: v2 :: v3 :: v4 :: v5 :: v6 :: v7 :: v8 :: rest := by
  rcases l with _ | ⟨v0, _ | ⟨v1, _ | ⟨v2, _ | ⟨v3, _ | ⟨v4, _ | ⟨v5, _ | ⟨v6, _ | ⟨v7,
    _ | ⟨v8, rest⟩⟩⟩⟩⟩⟩⟩⟩⟩ <;> simp at h
  exact ⟨v0, v1, v2, v3, v4, v5, v6, v7, v8, rest, rfl⟩

end WindingLemmas

section ReverseNormal

/-- Over the reals, a vector that is not zero, divided by its length as `normal` computes it,
has length 1, and so has its opposite. -/
theorem unit_of_ne_zero (x0 x1 x2 : ℝ) (hx : ¬ (x0 = 0 ∧ x1 = 0 ∧ x2 = 0)) :
    euclidNorm ⟨Real.sin, Real.cos, Real.sqrt, Real.pi⟩
      [-(x0 / Real.sqrt (0 + x0 ^ 2 + x1 ^ 2 + x2 ^ 2)),
       -(x1 / Real.sqrt (0 + x0 ^ 2 + x1 ^ 2 + x2 ^ 2)),
       -(x2 / Real.sqrt (0 + x0 ^ 2 + x1 ^ 2 + x2 ^ 2))] = 1 := by
  have hS : 0 < 0 + x0 ^ 2 + x1 ^ 2 + x2 ^ 2 := by
    have h0 := sq_nonneg x0
    have h1 := sq_nonneg x1
    have h2 := sq_nonneg x2
    rcases lt_or_eq_of_le (add_nonneg (add_nonneg (add_nonneg le_rfl h0) h1) h2) with hlt | heq
    · exact hlt
    · exfalso
      apply hx
      refine ⟨?_, ?_, ?_⟩ <;> apply pow_eq_zero_iff (two_ne_zero) |>.mp <;> linarith
  have hs : 0 < Real.sqrt (0 + x0 ^ 2 + x1 ^ 2 + x2 ^ 2) := Real.sqrt_pos.mpr hS
  have hss := Real.sq_sqrt hS.le
  simp only [euclidNorm, dot, List.zipWith_cons_cons, List.zipWith_nil_right, List.sum_cons,
    List.sum_nil, add_zero]
  generalize Real.sqrt (0 + x0 ^ 2 + x1 ^ 2 + x2 ^ 2) = s at hs hss
  have : -(x0 / s) * -(x0 / s) + (-(x1 / s) * -(x1 / s) + -(x2 / s) * -(x2 / s)) = 1 := by
    have hs0 : s ≠ 0 := hs.ne'
    field_simp
    linear_combination -hss
  rw [this, Real.sqrt_one]

/-- Over the reals, for three points that are not collinear, the normal of the triangle taken
in the order `c, b, a` is the negated normal of the triangle `a, b, c`, and has length 1. -/
theorem normal_reverse (a0 a1 a2 b0 b1 b2 c0 c1 c2 : ℝ)
    (h : ¬ Collinear3 [a0, a1, a2] [b0, b1, b2] [c0, c1, c2]) :
    ∃ n : List ℝ,
      normal ⟨Real.sin, Real.cos, Real.sqrt, Real.pi⟩ [a0, a1, a2] [b0, b1, b2] [c0, c1, c2] []
        = some n ∧
      normal ⟨Real.sin, Real.cos, Real.sqrt, Real.pi⟩ [c0, c1, c2] [b0, b1, b2] [a0, a1, a2] []
        = some (n.map (fun x => -x)) ∧
      euclidNorm ⟨Real.sin, Real.cos, Real.sqrt, Real.pi⟩ (n.map (fun x => -x)) = 1 := by
  rw [collinear3_iff_cross, crossProduct_three] at h
  have hx : ¬ ((b1 - a1) * (c2 - a2) - (b2 - a2) * (c1 - a1) = 0 ∧
      (b2 - a2) * (c0 - a0) - (b0 - a0) * (c2 - a2) = 0 ∧
      (b0 - a0) * (c1 - a1) - (b1 - a1) * (c0 - a0) = 0) := by
    simpa using h
  refine ⟨_, normal_three _ a0 a1 a2 b0 b1 b2 c0 c1 c2, ?_, ?_⟩
  · rw [normal_three]
    have e0 : (b1 - c1) * (a2 - c2) - (b2 - c2) * (a1 - c1)
        = -((b1 - a1) * (c2 - a2) - (b2 - a2) * (c1 - a1)) := by ring
    have e1 : (b2 - c2) * (a0 - c0) - (b0 - c0) * (a2 - c2)
        = -((b2 - a2) * (c0 - a0) - (b0 - a0) * (c2 - a2)) := by ring
    have e2 : (b0 - c0) * (a1 - c1) - (b1 - c1) * (a0 - c0)
        = -((b0 - a0) * (c1 - a1) - (b1 - a1) * (c0 - a0)) := by ring
    simp only [e0, e1, e2, neg_sq, neg_div, List.map_cons, List.map_nil]
  · simp only [List.map_cons, List.map_nil]
    exact unit_of_ne_zero _ _ _ hx

end ReverseNormal

/-- C13: over the reals, for every call `addTriangle(verPos)` with at least nine values whose
corners `a`, `b`, `c` (the first nine values) are not collinear, the call succeeds, appends
`a`, `b`, `c` to the positions and the indices `size + 2`, `size + 1`, `size` (stored modulo
`2 ^ 32`) to the indices, and the three values it appends to `m_triangleNormals` are
`normal(c, b, a)`: the unit normal of the corners in index order, equal to the negated
`normal(a, b, c)`.  When the positions held `3 s` floats before the call, the vertices
`s + 2`, `s + 1`, `s` are `c`, `b`, `a`. -/
theorem addTriangle_normal_winding (m : Mesh ℝ) (verPos : List ℝ) (hlen : 9 ≤ verPos.length)
    (hnc : ¬ Collinear3 (verPos.take 3) ((verPos.drop 3).take 3) ((verPos.drop 6).take 3)) :
    ∃ (m' : Mesh ℝ) (n nrev : List ℝ),
      m.addTriangle ⟨Real.sin, Real.cos, Real.sqrt, Real.pi⟩ verPos = some m' ∧
      normal ⟨Real.sin, Real.cos, Real.sqrt, Real.pi⟩
        (verPos.take 3) ((verPos.drop 3).take 3) ((verPos.drop 6).take 3) [] = some n ∧
      normal ⟨Real.sin, Real.cos, Real.sqrt, Real.pi⟩
        ((verPos.drop 6).take 3) ((verPos.drop 3).take 3) (verPos.take 3) [] = some nrev ∧
      nrev = n.map (fun x => -x) ∧
      euclidNorm ⟨Real.sin, Real.cos, Real.sqrt, Real.pi⟩ nrev = 1 ∧
      m'.m_triangleNormals = m.m_triangleNormals ++ nrev ∧
      m'.m_vertexPositions = m.m_vertexPositions ++
        (verPos.take 3 ++ (verPos.drop 3).take 3 ++ (verPos.drop 6).take 3) ∧
      m'.m_triangleIndices = m.m_triangleIndices ++
        [(m.m_vertexPositions.length / 3 + 2) % 2 ^ 32,
         (m.m_vertexPositions.length / 3 + 1) % 2 ^ 32,
         (m.m_vertexPositions.length / 3) % 2 ^ 32] ∧
      (m.m_vertexPositions.length / 3 + 2 < 2 ^ 32 →
        m'.m_triangleIndices = m.m_triangleIndices ++
          [m.m_vertexPositions.length / 3 + 2, m.m_vertexPositions.length / 3 + 1,
           m.m_vertexPositions.length / 3]) ∧
      (∀ s, m.m_vertexPositions.length = 3 * s →
        (m'.m_vertexPositions.drop (3 * (s + 2))).take 3 = (verPos.drop 6).take 3 ∧
        (m'.m_vertexPositions.drop (3 * (s + 1))).take 3 = (verPos.drop 3).take 3 ∧
        (m'.m_vertexPositions.drop (3 * s)).take 3 = verPos.take 3) := by
  obtain ⟨v0, v1, v2, v3, v4, v5, v6, v7, v8, rest, rfl⟩ := exists_nine_of_le_length verPos hlen
  simp only [List.take_succ_cons, List.take_zero, List.drop_succ_cons, List.drop_zero] at hnc ⊢
  obtain ⟨n, hn, hrev, hunit⟩ := normal_reverse v0 v1 v2 v3 v4 v5 v6 v7 v8 hnc
  refine ⟨_, n, n.map (fun x => -x), addTriangle_cons _ m v0 v1 v2 v3 v4 v5 v6 v7 v8 rest,
    hn, hrev, rfl, hunit, ?_, ?_, rfl, ?_, ?_⟩
  · simp only [storedNormal, hn, Option.getD_some]
  · simp
  · intro hsmall
    have h2 : (m.m_vertexPositions.length / 3 + 2) % 2 ^ 32 = m.m_vertexPositions.length / 3 + 2 :=
      Nat.mod_eq_of_lt hsmall
    have h1 : (m.m_vertexPositions.length / 3 + 1) % 2 ^ 32 = m.m_vertexPositions.length / 3 + 1 :=
      Nat.mod_eq_of_lt (by omega)
    have h0 : (m.m_vertexPositions.length / 3) % 2 ^ 32 = m.m_vertexPositions.length / 3 :=
      Nat.mod_eq_of_lt (by omega)
    simp only [h2, h1, h0]
  · intro s hs
    have e2 : 3 * (s + 2) = m.m_vertexPositions.length + 6 := by omega
    have e1 : 3 * (s + 1) = m.m_vertexPositions.length + 3 := by omega
    have e0 : 3 * s = m.m_vertexPositions.length + 0 := by omega
    refine ⟨?_, ?_, ?_⟩
    · show ((m.m_vertexPositions ++ [v0, v1, v2, v3, v4, v5, v6, v7, v8]).drop _).take 3 = _
      rw [e2, List.drop_append]
      rfl
    · show ((m.m_vertexPositions ++ [v0, v1, v2, v3, v4, v5, v6, v7, v8]).drop _).take 3 = _
      rw [e1, List.drop_append]
      rfl
    · show ((m.m_vertexPositions ++ [v0, v1, v2, v3, v4, v5, v6, v7, v8]).drop _).take 3 = _
      rw [e0, List.drop_append]
      rfl

/-- Witness for C13: the triangle `(0,0,0)`, `(1,0,0)`, `(0,1,0)` added to an empty mesh. -/
theorem addTriangle_normal_winding_witness :
    ∃ (m' : Mesh ℝ) (n nrev : List ℝ),
      ({} : Mesh ℝ).addTriangle ⟨Real.sin, Real.cos, Real.sqrt, Real.pi⟩
        [0, 0, 0, 1, 0, 0, 0, 1, 0] = some m' ∧
      normal ⟨Real.sin, Real.cos, Real.sqrt, Real.pi⟩
        (([0, 0, 0, 1, 0, 0, 0, 1, 0] : List ℝ).take 3)
        ((([0, 0, 0, 1, 0, 0, 0, 1, 0] : List ℝ).drop 3).take 3)
        ((([0, 0, 0, 1, 0, 0, 0, 1, 0] : List ℝ).drop 6).take 3) [] = some n ∧
      normal ⟨Real.sin, Real.cos, Real.sqrt, Real.pi⟩
        ((([0, 0, 0, 1, 0, 0, 0, 1, 0] : List ℝ).drop 6).take 3)
        ((([0, 0, 0, 1, 0, 0, 0, 1, 0] : List ℝ).drop 3).take 3)
        (([0, 0, 0, 1, 0, 0, 0, 1, 0] : List ℝ).take 3) [] = some nrev ∧
      nrev = n.map (fun x => -x) ∧
      euclidNorm ⟨Real.sin, Real.cos, Real.sqrt, Real.pi⟩ nrev = 1 ∧
      m'.m_triangleNormals = ({} : Mesh ℝ).m_triangleNormals ++ nrev ∧
      m'.m_vertexPositions = ({} : Mesh ℝ).m_vertexPositions ++
        (([0, 0, 0, 1, 0, 0, 0, 1, 0] : List ℝ).take 3 ++
          (([0, 0, 0, 1, 0, 0, 0, 1, 0] : List ℝ).drop 3).take 3 ++
          (([0, 0, 0, 1, 0, 0, 0, 1, 0] : List ℝ).drop 6).take 3) ∧
      m'.m_triangleIndices = ({} : Mesh ℝ).m_triangleIndices ++
        [(({} : Mesh ℝ).m_vertexPositions.length / 3 + 2) % 2 ^ 32,
         (({} : Mesh ℝ).m_vertexPositions.length / 3 + 1) % 2 ^ 32,
         (({} : Mesh ℝ).m_vertexPositions.length / 3) % 2 ^ 32] ∧
      (({} : Mesh ℝ).m_vertexPositions.length / 3 + 2 < 2 ^ 32 →
        m'.m_triangleIndices = ({} : Mesh ℝ).m_triangleIndices ++
          [({} : Mesh ℝ).m_vertexPositions.length / 3 + 2,
           ({} : Mesh ℝ).m_vertexPositions.length / 3 + 1,
           ({} : Mesh ℝ).m_vertexPositions.length / 3]) ∧
      (∀ s, ({} : Mesh ℝ).m_vertexPositions.length = 3 * s →
        (m'.m_vertexPositions.drop (3 * (s + 2))).take 3
          = (([0, 0, 0, 1, 0, 0, 0, 1, 0] : List ℝ).drop 6).take 3 ∧
        (m'.m_vertexPositions.drop (3 * (s + 1))).take 3
          = (([0, 0, 0, 1, 0, 0, 0, 1, 0] : List ℝ).drop 3).take 3 ∧
        (m'.m_vertexPositions.drop (3 * s)).take 3
          = ([0, 0, 0, 1, 0, 0, 0, 1, 0] : List ℝ).take 3) :=
  addTriangle_normal_winding {} [0, 0, 0, 1, 0, 0, 0, 1, 0] (by simp) (by
    simp only [List.take_succ_cons, List.take_zero, List.drop_succ_cons, List.drop_zero]
    rw [collinear3_iff_cross, crossProduct_three]
    simp)

/-! ## Theorems: the GPU upload -/

section UploadLemmas

variable {α : Type} [LinearOrderedField α]

/-- A buffer created with the byte size of the array it is filled from holds that array. -/
theorem glBufferData_full {β : Type} (data : List β) :
    glBufferData (sizeofScalar * data.length) data
      = some { byteSize := sizeofScalar * data.length, data := data } := by
  simp [glBufferData, sizeofScalar]

/-- A buffer filled from another array than the one that gave its size: undefined when that
array is shorter, and a prefix of that array otherwise. -/
theorem glBufferData_other {β γ : Type} (sized : List γ) (data : List β) :
    glBufferData (sizeofScalar * sized.length) data
      = if sized.length ≤ data.length then
          some { byteSize := sizeofScalar * sized.length, data := data.take sized.length }
        else none := by
  simp [glBufferData, sizeofScalar]

/-- With `_MY_OPENGL_IS_33_` defined, `init` never fails, fills the four buffers with the
four CPU arrays and sets the ambient colour. -/
theorem init_33 (m : Mesh α) :
    Mesh.init true m =
      some ({ m with m_ambientColor := [0, 1 / 2, 1] },
        { m_posVbo := ⟨sizeofScalar * m.m_vertexPositions.length, m.m_vertexPositions⟩
          m_colVbo := ⟨sizeofScalar * m.m_vertexNormals.length, m.m_vertexNormals⟩
          m_texCoordVbo := ⟨sizeofScalar * m.m_vertexTexCoords.length, m.m_vertexTexCoords⟩
          m_normalVbo := ⟨sizeofScalar * m.m_triangleIndices.length, m.m_triangleIndices⟩ }) := by
  simp [Mesh.init, glBufferData_full]

/-- Without `_MY_OPENGL_IS_33_`, the buffer of the colours is filled from the ambient
colour. -/
theorem init_45 (m : Mesh α) :
    Mesh.init false m =
      if m.m_vertexNormals.length ≤ m.m_ambientColor.length then
        some ({ m with m_ambientColor := [0, 1 / 2, 1] },
          { m_posVbo := ⟨sizeofScalar * m.m_vertexPositions.length, m.m_vertexPositions⟩
            m_colVbo := ⟨sizeofScalar * m.m_vertexNormals.length,
              m.m_ambientColor.take m.m_vertexNormals.length⟩
            m_texCoordVbo := ⟨sizeofScalar * m.m_vertexTexCoords.length, m.m_vertexTexCoords⟩
            m_normalVbo := ⟨sizeofScalar * m.m_triangleIndices.length, m.m_triangleIndices⟩ })
      else none := by
  by_cases h : m.m_vertexNormals.length ≤ m.m_ambientColor.length
  · simp [Mesh.init, glBufferData_full, glBufferData_other, h]
  · simp [Mesh.init, glBufferData_full, glBufferData_other, h]

end UploadLemmas

/-- C12 (the claim fails on the code built without `_MY_OPENGL_IS_33_`): for the mesh `m`
returned by `genSphere(r)`, `r > 0`, as `main` passes it to `init`:
with the macro defined, `init` fills the position, colour, texture-coordinate and index
buffers with `m_vertexPositions`, `m_vertexNormals`, `m_vertexTexCoords` and
`m_triangleIndices`, each with the byte size of its array, sets the ambient colour to
`(0, 0.5, 1)` and leaves the CPU arrays unchanged;
without it, the colour buffer is filled from `m_ambientColor`, which is still empty while
`m_vertexNormals` holds `18 r²` floats, so the upload reads past the end of the array and the
buffer does not hold the normals.  On a mesh whose ambient colour is long enough the colour
buffer holds the ambient colour. -/
theorem init_color_buffer {α : Type} [LinearOrderedField α] (ops : FloatOps α)
    (fl : α → α) (distr : RandomSource α) (r : Nat) (hr : 0 < r) :
    ∃ m : Mesh α, genSphere ops fl distr r = some m ∧
      (∃ (m' : Mesh α) (g : MeshBuffers α), Mesh.init true m = some (m', g) ∧
        g.m_posVbo = ⟨sizeofScalar * m.m_vertexPositions.length, m.m_vertexPositions⟩ ∧
        g.m_colVbo = ⟨sizeofScalar * m.m_vertexNormals.length, m.m_vertexNormals⟩ ∧
        g.m_texCoordVbo = ⟨sizeofScalar * m.m_vertexTexCoords.length, m.m_vertexTexCoords⟩ ∧
        g.m_normalVbo = ⟨sizeofScalar * m.m_triangleIndices.length, m.m_triangleIndices⟩ ∧
        m'.m_ambientColor = [0, 1 / 2, 1] ∧
        m'.m_vertexPositions = m.m_vertexPositions ∧
        m'.m_vertexNormals = m.m_vertexNormals ∧
        m'.m_vertexTexCoords = m.m_vertexTexCoords ∧
        m'.m_triangleIndices = m.m_triangleIndices) ∧
      m.m_ambientColor = [] ∧
      m.m_vertexNormals.length = 18 * r ^ 2 ∧
      Mesh.init false m = none ∧
      (∃ (m' : Mesh α) (g : MeshBuffers α),
        Mesh.init false
          ({ m_vertexNormals := [4, 5, 6], m_ambientColor := [9, 8, 7] } : Mesh α)
          = some (m', g) ∧
        g.m_colVbo = ⟨sizeofScalar * 3, [9, 8, 7]⟩) := by
  have hlen : (randomizeN fl distr (fl (1 / 10)) (spherePositions ops r) []).length
      = 18 * r ^ 2 := by
    simp only [randomizeN, randomizeN_loop_length, spherePositions_length, List.length_nil]
    ring
  have hpos : 0 < 18 * r ^ 2 := by positivity
  refine ⟨_, genSphere_eq ops fl distr r, ⟨_, _, init_33 _, rfl, rfl, rfl, rfl, rfl, rfl, rfl, rfl,
    rfl⟩, rfl, hlen, ?_, ⟨_, _, (init_45 _).trans (if_pos (by simp)), rfl⟩⟩
  rw [init_45]
  simp only [hlen, List.length_nil]
  rw [if_neg (by omega)]

/-- Witness for C12: resolution 1, on rational scalars. -/
theorem init_color_buffer_witness :
    ∃ m : Mesh ℚ,
      genSphere ⟨fun x => x, fun x => x, fun x => x, 3⟩ binary32 (fun _ _ _ => 0) 1 = some m ∧
      (∃ (m' : Mesh ℚ) (g : MeshBuffers ℚ), Mesh.init true m = some (m', g) ∧
        g.m_posVbo = ⟨sizeofScalar * m.m_vertexPositions.length, m.m_vertexPositions⟩ ∧
        g.m_colVbo = ⟨sizeofScalar * m.m_vertexNormals.length, m.m_vertexNormals⟩ ∧
        g.m_texCoordVbo = ⟨sizeofScalar * m.m_vertexTexCoords.length, m.m_vertexTexCoords⟩ ∧
        g.m_normalVbo = ⟨sizeofScalar * m.m_triangleIndices.length, m.m_triangleIndices⟩ ∧
        m'.m_ambientColor = [0, 1 / 2, 1] ∧
        m'.m_vertexPositions = m.m_vertexPositions ∧
        m'.m_vertexNormals = m.m_vertexNormals ∧
        m'.m_vertexTexCoords = m.m_vertexTexCoords ∧
        m'.m_triangleIndices = m.m_triangleIndices) ∧
      m.m_ambientColor = [] ∧
      m.m_vertexNormals.length = 18 * 1 ^ 2 ∧
      Mesh.init false m = none ∧
      (∃ (m' : Mesh ℚ) (g : MeshBuffers ℚ),
        Mesh.init false
          ({ m_vertexNormals := [4, 5, 6], m_ambientColor := [9, 8, 7] } : Mesh ℚ)
          = some (m', g) ∧
        g.m_colVbo = ⟨sizeofScalar * 3, [9, 8, 7]⟩) :=
  init_color_buffer _ _ _ 1 (by decide)

end SolarSystem
